import Mathlib

/-!
Verification of the analysis and aggregation pipeline of the rsc-xray
static-analysis engine, as implemented in
`examples/demo/app/api/analyze/route.ts` and
`packages/analyzer/src/rules/clientForbiddenImports.ts`.

The JavaScript/TypeScript sources are shallowly embedded: strings are Lean
strings (all primitive operations are re-implemented structurally over
`String.data` so every definition evaluates inside the kernel), JavaScript
objects and `Map`s become insertion-ordered association lists, `Set`s become
insertion-ordered duplicate-free lists, and the TypeScript AST is modelled by
an inductive type carrying exactly the shape information the analyzed code
inspects (import declarations with their string-literal module specifier and
its offsets, `require(...)` call expressions, and arbitrary other nodes with
children).  The external `analyze` function of `@rsc-xray/lsp-server` is an
explicit function parameter of the aggregation pipeline, mirroring the spec,
which treats the wire transport and the single-target analyzer as external
collaborators.
-/

namespace RscXray

/-! ## String primitives

Kernel-computable replacements for the JavaScript string operations used by
the sources: `startsWith`, `endsWith`, `split`, `slice`, lexicographic
comparison (the default `Array.prototype.sort` comparator) and lowercasing.
They operate on `String.data` so that `decide` and `rfl` can evaluate them. -/

/-- Boolean test that the first character list is a leading piece of the second. -/
def isLead : List Char → List Char → Bool
  | [], _ => true
  | _ :: _, [] => false
  | a :: as, b :: bs => a == b && isLead as bs

/-- Model of JavaScript `s.startsWith(p)`. -/
def strStarts (s p : String) : Bool := isLead p.data s.data

/-- Model of JavaScript `s.endsWith(p)`. -/
def strEnds (s p : String) : Bool := isLead p.data.reverse s.data.reverse

/-- Model of JavaScript `s.slice(n)` (drop the first `n` UTF-16 units; all
strings appearing in this development are ASCII, where code units and
codepoints coincide). -/
def strDrop (s : String) (n : Nat) : String := ⟨s.data.drop n⟩

/-- Split a character list at every occurrence of the separator character. -/
def splitOnChar (c : Char) : List Char → List (List Char)
  | [] => [[]]
  | a :: as =>
    let rest := splitOnChar c as
    if a == c then [] :: rest
    else
      match rest with
      | [] => [[a]]
      | r :: rs => (a :: r) :: rs

/-- Model of JavaScript `s.split(c)` for a one-character separator. -/
def strSplitOn (s : String) (c : Char) : List String :=
  (splitOnChar c s.data).map (fun l => ⟨l⟩)

/-- Model of JavaScript `s.split(sep).pop()`, which on a string always yields
the final (possibly empty) segment. -/
def lastSegment (s : String) (c : Char) : String :=
  (strSplitOn s c).getLastD ""

/-- Model of the JavaScript replacement `s.replace(/^\.\//, '')`: strip one
leading `./`. -/
def stripDotSlash (s : String) : String :=
  if strStarts s "./" then strDrop s 2 else s

/-- Lexicographic comparison of character lists by codepoint, matching the
default JavaScript string comparison for the ASCII strings in play. -/
def charListLe : List Char → List Char → Bool
  | [], _ => true
  | _ :: _, [] => false
  | a :: as, b :: bs => if a < b then true else if b < a then false else charListLe as bs

/-- Lexicographic string order used to model the default `Array.sort()`. -/
def strLe (a b : String) : Bool := charListLe a.data b.data

/-- Insert a string into a list sorted by `strLe`, keeping it sorted. -/
def insertSorted (x : String) : List String → List String
  | [] => [x]
  | y :: ys => if strLe x y then x :: y :: ys else y :: insertSorted x ys

/-- Model of the default JavaScript `Array.prototype.sort()` on strings.  The
result of any comparison sort is the unique sorted permutation (string order
is total and antisymmetric), so insertion sort is extensionally faithful. -/
def sortStrings (l : List String) : List String := l.foldr insertSorted []

/-- Model of JavaScript `Set.prototype.add`: append unless already present. -/
def addUnique (l : List String) (x : String) : List String :=
  if x ∈ l then l else l ++ [x]

/-- ASCII lowercasing of one character, as done by `String.prototype.toLowerCase`
on the extension strings compared case-insensitively by the sources. -/
def asciiLower (c : Char) : Char := c.toLower

/-- Model of JavaScript `s.toLowerCase()` for the ASCII strings in play. -/
def strLower (s : String) : String := ⟨s.data.map asciiLower⟩

/-! ## Insertion-ordered association lists

JavaScript `Map`s and plain objects keyed by file-name strings preserve
insertion order; updating an existing key keeps its position.  (The sources
key these maps by file paths, which are never integer-like, so the plain
object enumeration order is also insertion order.) -/

/-- Lookup in an insertion-ordered association list (JavaScript `map.get` /
`obj[key]`). -/
def alGet {α : Type} : List (String × α) → String → Option α
  | [], _ => none
  | (k', v) :: rest, k => if k' = k then some v else alGet rest k

/-- Update-or-append for an insertion-ordered association list (JavaScript
`map.set` / `obj[key] = v`): an existing key keeps its position, a new key is
appended at the end. -/
def alSet {α : Type} : List (String × α) → String → α → List (String × α)
  | [], k, v => [(k, v)]
  | (k', v') :: rest, k, v =>
    if k' = k then (k, v) :: rest else (k', v') :: alSet rest k v

/-! ## Diagnostic data model

From `@rsc-xray/schemas` as used by the demo route and the analyzer rule:
`{ rule?, level, message, loc?: { file, range?: { from, to } } }`.  A
`Suggestion` is a record without a `rule` field; the aggregator keys it as
the literal string `suggestion`, so `rule` is modelled as an `Option`. -/

/-- Half-open pair of UTF-16 offsets into a file's source text. -/
structure DiagRange where
  fromOff : Nat
  toOff : Nat
deriving DecidableEq, Repr

/-- Location of a diagnostic: a file path and an optional offset range. -/
structure DiagLoc where
  file : String
  range : Option DiagRange
deriving DecidableEq, Repr

/-- One diagnostic or suggestion record.  `rule = none` models a `Suggestion`
(no `rule` field). -/
structure Diag where
  rule : Option String
  level : String
  message : String
  loc : Option DiagLoc
deriving DecidableEq, Repr

/-! ## TypeScript AST model

The analyzed code inspects only a small part of the TypeScript AST produced by
`ts.createSourceFile`: import declarations (their statement start offset and
their string-literal module specifier with text and offsets), call expressions
whose callee is the identifier `require` (with the first argument when it is a
string literal), and — for the recursive `forEachChild` walk — the children of
every node.  `Lit` models a `ts.StringLiteral` together with
`getStart(sourceFile)` and `getEnd()`. -/

/-- A string literal node: its text and its start and end offsets. -/
structure Lit where
  text : String
  startOff : Nat
  endOff : Nat
deriving DecidableEq, Repr

mutual

/-- A TypeScript AST node, abstracted to the shapes the sources distinguish.
`importDecl` is an import declaration (`spec = none` when the module specifier
is not a string literal); `requireCall` is a call expression whose callee is
the identifier `require` (`firstArg = none` when there is no argument or the
first argument is not a string literal); `otherNode` is any other node. -/
inductive TsNode where
  | importDecl (stmtStart : Nat) (spec : Option Lit) (children : TsNodeList)
  | requireCall (firstArg : Option Lit) (children : TsNodeList)
  | otherNode (children : TsNodeList)

/-- A list of sibling AST nodes, in source order (the `forEachChild` order). -/
inductive TsNodeList where
  | nil
  | cons (head : TsNode) (tail : TsNodeList)

end

/-- A parsed source file: its name, the leading string-literal expression
statement when there is one (the module directive position), and its top-level
statements. -/
structure SourceFileModel where
  fileName : String
  leadingDirective : Option String
  statements : TsNodeList

/-! ## Forbidden-import rule

Embedding of `packages/analyzer/src/rules/clientForbiddenImports.ts`. -/

/-- The default server-only module denylist (`DEFAULT_MODULES`). -/
def DEFAULT_MODULES : List String :=
  ["fs", "path", "child_process", "os", "net", "tls", "http", "https",
   "worker_threads", "perf_hooks"]

/-- Model of `resolveModuleSet`: a caller-supplied denylist, or the default. -/
def resolveModuleSet (forbiddenModules : Option (List String)) : List String :=
  forbiddenModules.getD DEFAULT_MODULES

/-- Model of `normalizeModule`: strip a leading `node:` scheme. -/
def normalizeModule (moduleName : String) : String :=
  if strStarts moduleName "node:" then strDrop moduleName 5 else moduleName

/-- Model of `isForbiddenModule`: the specifier itself, or the specifier with a
leading `node:` stripped, is in the denylist. -/
def isForbiddenModule (moduleName : String) (modules : List String) : Bool :=
  modules.contains moduleName || modules.contains (normalizeModule moduleName)

/-- Modelled from the spec: `createDiagnosticFromNode` lives in
`packages/analyzer/src/lib/diagnosticHelpers.ts`, which is not among the
provided source files.  Per the spec (sections 3 and 4.2) it builds a
diagnostic whose `range` is the pair of UTF-16 offsets of the node it points
at, inside the named file. -/
def createDiagnosticFromNode (nodeStart nodeEnd : Nat)
    (file rule message level : String) : Diag :=
  { rule := some rule
    level := level
    message := message
    loc := some { file := file, range := some ⟨nodeStart, nodeEnd⟩ } }

/-- Model of `createDiagnostic` in `clientForbiddenImports.ts`.  Both call
sites pass the string-literal node itself (the module specifier or the first
`require` argument), so the import-declaration redirection branch inside the
source function never changes the target node at these call sites. -/
def createDiagnostic (fileName : String) (lit : Lit) (moduleName : String) : Diag :=
  createDiagnosticFromNode lit.startOff lit.endOff fileName
    "client-forbidden-import"
    ("Client components must not import '" ++ moduleName ++ "'.")
    "error"

mutual

/-- The recursive `visit` closure of `analyzeSource`: check the node itself
(import declaration with a string-literal specifier, or `require(...)` with a
string-literal first argument), then recurse into the children. -/
def visitNode (modules : List String) (fileName : String) : TsNode → List Diag
  | .importDecl _ spec children =>
    (match spec with
     | some lit =>
       if isForbiddenModule lit.text modules then [createDiagnostic fileName lit lit.text]
       else []
     | none => []) ++ visitChildren modules fileName children
  | .requireCall firstArg children =>
    (match firstArg with
     | some lit =>
       if isForbiddenModule lit.text modules then [createDiagnostic fileName lit lit.text]
       else []
     | none => []) ++ visitChildren modules fileName children
  | .otherNode children => visitChildren modules fileName children

/-- The `forEachChild` part of `visit`: visit the siblings in order. -/
def visitChildren (modules : List String) (fileName : String) : TsNodeList → List Diag
  | .nil => []
  | .cons h t => visitNode modules fileName h ++ visitChildren modules fileName t

end

/-- Model of `analyzeSource`: parse (already done in the model), resolve the
module denylist, and run the recursive visitor from the source-file root (the
root itself is neither an import nor a call). -/
def analyzeSource (file : SourceFileModel) (forbiddenModules : Option (List String)) :
    List Diag :=
  visitNode (resolveModuleSet forbiddenModules) file.fileName (.otherNode file.statements)

/-- The component kinds of the classifier. -/
inductive ComponentKind where
  | server
  | client
deriving DecidableEq, Repr

/-- Modelled from the spec: `classifyComponent` lives in
`packages/analyzer/src/lib/classify.ts`, which is not among the provided
source files.  Per the spec (sections 2, 4.1 and 8) a file is classified
`client` exactly when its first statement is the client-directive string
literal, and `server` otherwise. -/
def classifyComponent (file : SourceFileModel) : ComponentKind :=
  if file.leadingDirective = some "use client" then .client else .server

/-- Model of `analyzeClientFileForForbiddenImports`: classify, return nothing
for non-client files, otherwise run `analyzeSource`. -/
def analyzeClientFileForForbiddenImports (file : SourceFileModel)
    (forbiddenModules : Option (List String)) : List Diag :=
  if classifyComponent file ≠ .client then []
  else analyzeSource file forbiddenModules

mutual

/-- The offending specifiers of a node, in visit order: for each import
declaration or `require` call whose string-literal specifier is forbidden, the
statement start offset (imports only) paired with the literal. -/
def forbiddenHitsNode (modules : List String) : TsNode → List (Option Nat × Lit)
  | .importDecl stmtStart spec children =>
    (match spec with
     | some lit => if isForbiddenModule lit.text modules then [(some stmtStart, lit)] else []
     | none => []) ++ forbiddenHitsList modules children
  | .requireCall firstArg children =>
    (match firstArg with
     | some lit => if isForbiddenModule lit.text modules then [(none, lit)] else []
     | none => []) ++ forbiddenHitsList modules children
  | .otherNode children => forbiddenHitsList modules children

/-- Sibling-list version of `forbiddenHitsNode`. -/
def forbiddenHitsList (modules : List String) : TsNodeList → List (Option Nat × Lit)
  | .nil => []
  | .cons h t => forbiddenHitsNode modules h ++ forbiddenHitsList modules t

end

/-! ## Context sanitization

Embedding of `isRouteSegmentFile` and `sanitizeContextForTarget` from
`examples/demo/app/api/analyze/route.ts`. -/

/-- The recognized route-segment file names (`ROUTE_SEGMENT_FILE_NAMES`). -/
def ROUTE_SEGMENT_FILE_NAMES : List String :=
  ["page.tsx", "layout.tsx", "default.tsx", "template.tsx", "error.tsx",
   "loading.tsx", "route.ts"]

/-- Model of `isRouteSegmentFile`: exact membership in the set, or a path
suffix `/<segment>`. -/
def isRouteSegmentFile (fileName : String) : Bool :=
  ROUTE_SEGMENT_FILE_NAMES.contains fileName ||
    ROUTE_SEGMENT_FILE_NAMES.any (fun seg => strEnds fileName ("/" ++ seg))

/-- A route-segment configuration value, opaque to sanitization (the demo
models it as a record of export names to values). -/
def RouteConfigValue : Type := List (String × String)

instance : DecidableEq RouteConfigValue := by
  unfold RouteConfigValue
  infer_instance

/-- A target's effective context as sanitization sees it: the optional
`routeConfig` field, and all remaining fields as an opaque key-value list
(`Object.keys` of the rest).  A `routeConfig` key present with value
`undefined` behaves like an absent key in the source (the guard tests
`context.routeConfig === undefined`), so both are `none` here. -/
structure ContextModel where
  routeConfig : Option RouteConfigValue
  others : List (String × String)
deriving DecidableEq

/-- Model of `sanitizeContextForTarget`: keep the context unchanged when there
is no `routeConfig` or the file is a recognized route-segment file; otherwise
drop `routeConfig`, returning `undefined` when nothing else remains. -/
def sanitizeContextForTarget (context : Option ContextModel) (fileName : String) :
    Option ContextModel :=
  match context with
  | none => none
  | some ctx =>
    if ctx.routeConfig = none then some ctx
    else if isRouteSegmentFile fileName then some ctx
    else if ctx.others.length > 0 then some { routeConfig := none, others := ctx.others }
    else none

/-- The `routeConfig` of an optional context (absent context has none). -/
def routeConfigOf (context : Option ContextModel) : Option RouteConfigValue :=
  match context with
  | none => none
  | some ctx => ctx.routeConfig

/-- The non-`routeConfig` fields of an optional context (absent context has
none). -/
def othersOf (context : Option ContextModel) : List (String × String) :=
  match context with
  | none => []
  | some ctx => ctx.others

/-! ## Multi-target request payloads and lookups

Embedding of `buildCodeLookup`, `buildRouteLookup` and
`extractRouteFromComponentPath` from the demo route.  A target's `code` is
carried in parsed form (`TsNodeList` of top-level statements), since the
sources immediately re-parse it with `ts.createSourceFile`; `code = none`
models a missing or non-string `code` in the raw request.  `clientBundles` is
the `context.clientBundles` array (empty when absent — an absent and an empty
array are treated identically by every consumer). -/

/-- One `{ filePath, chunks[] }` client-bundle record. -/
structure Bundle where
  filePath : String
  chunks : List String
deriving DecidableEq, Repr

/-- One entry of `body.analysisTargets`.  `fileName = none` or `code = none`
model a missing or non-string field. -/
structure RawTarget where
  fileKey : Option String
  fileName : Option String
  code : Option TsNodeList
  clientBundles : List Bundle
  route : Option String

/-- Model of `extractRouteFromComponentPath`: the anchored match
`/^app\/?([^\/]+)/` (note that `app` may be followed directly by further
non-slash characters, faithful to the regex), then the anchored
`/^([^\/]+)\//`. -/
def extractRouteFromComponentPath (componentPath : String) : Option String :=
  let normalized := stripDotSlash componentPath
  if strStarts normalized "app" then
    let rest := strDrop normalized 3
    let rest2 := if strStarts rest "/" then strDrop rest 1 else rest
    let seg : String := ⟨rest2.data.takeWhile (fun c => c ≠ '/')⟩
    if seg ≠ "" then some ("/" ++ seg)
    else
      match strSplitOn normalized '/' with
      | first :: _ :: _ => if first ≠ "" then some ("/" ++ first) else none
      | _ => none
  else
    match strSplitOn normalized '/' with
    | first :: _ :: _ => if first ≠ "" then some ("/" ++ first) else none
    | _ => none

/-- Model of `buildCodeLookup`: register each target's code under its
normalized file name, that name's basename, and (when a non-empty `fileKey` is
present) the normalized key and its basename. -/
def buildCodeLookup (targets : List RawTarget) : List (String × TsNodeList) :=
  targets.foldl
    (fun lookup t =>
      let normalizedFileName := stripDotSlash (t.fileName.getD "")
      let code := t.code.getD .nil
      let l1 := alSet lookup normalizedFileName code
      let baseName := lastSegment normalizedFileName '/'
      let l2 := if baseName ≠ "" then alSet l1 baseName code else l1
      match t.fileKey with
      | some k =>
        if k = "" then l2
        else
          let normalizedKey := stripDotSlash k
          let l3 := alSet l2 normalizedKey code
          let keyBase := lastSegment normalizedKey '/'
          if keyBase ≠ "" then alSet l3 keyBase code else l3
      | none => l2)
    []

/-- The `addRoute` closure of `buildRouteLookup`: skip empty route values,
then record the route under the normalized path and its basename. -/
def addRouteTo (lookup : List (String × List String)) (filePath : String)
    (routeValue : Option String) : List (String × List String) :=
  match routeValue with
  | none => lookup
  | some rv =>
    if rv = "" then lookup
    else
      let normalized := stripDotSlash filePath
      let l1 := alSet lookup normalized (addUnique ((alGet lookup normalized).getD []) rv)
      let baseName := lastSegment normalized '/'
      if baseName ≠ "" then
        alSet l1 baseName (addUnique ((alGet l1 baseName).getD []) rv)
      else l1

/-- Model of `buildRouteLookup`: for every target, derive a route value from
its context (`context.route`) or from its file-name shape, and register it for
the file name, the file key, and every bundle path of that target. -/
def buildRouteLookup (targets : List RawTarget) : List (String × List String) :=
  targets.foldl
    (fun lookup t =>
      let routeValue :=
        match t.route with
        | some r => some r
        | none => extractRouteFromComponentPath (t.fileName.getD "")
      let l1 := addRouteTo lookup (t.fileName.getD "") routeValue
      let l2 :=
        match t.fileKey with
        | some k => if k = "" then l1 else addRouteTo l1 k routeValue
        | none => l1
      t.clientBundles.foldl (fun l b => addRouteTo l b.filePath routeValue) l2)
    []

/-! ## Duplicate-dependency detector

Embedding of `generateDuplicateDiagnostics` from the demo route. -/

/-- One `{ key, identity, diag }` record produced by the detector. -/
structure DupResult where
  key : String
  identity : String
  diag : Diag
deriving DecidableEq, Repr

/-- The reverse index `chunkToComponents`: chunk identifier to the
insertion-ordered set of normalized component paths that include it
(a JavaScript `Map` of `Set`s). -/
def buildChunkIndex (bundles : List Bundle) : List (String × List String) :=
  bundles.foldl
    (fun idx b =>
      let normalizedPath := stripDotSlash b.filePath
      b.chunks.foldl
        (fun idx chunk =>
          let components := (alGet idx chunk).getD []
          alSet idx chunk
            (if normalizedPath ∈ components then components
             else components ++ [normalizedPath]))
        idx)
    []

/-- Model of `chunkBase.replace(/\.(js|mjs|cjs|ts|tsx)$/i, '')`: strip one
final dot-extension when the text after the last dot is one of the listed
extensions, case-insensitively. -/
def stripJsLikeExt (s : String) : String :=
  let parts := strSplitOn s '.'
  if parts.length ≥ 2 then
    let ext := parts.getLastD ""
    if (strLower ext) ∈ (["js", "mjs", "cjs", "ts", "tsx"] : List String) then
      ⟨s.data.take (s.data.length - (ext.data.length + 1))⟩
    else s
  else s

/-- The specifier-to-chunk match condition inside the import scan. -/
def specMatchesChunk (specText chunk chunkBase chunkName : String) : Bool :=
  specText = chunk || specText = chunkBase || specText = chunkName ||
    (specText ++ ".js") = chunkBase || (specText ++ ".js") = chunk

/-- The `forEachChild` scan over the component's top-level statements: record
the first import's specifier as the fallback, and the first specifier matching
the chunk as the match.  Returns `(matchedSpecifier, fallbackSpecifier)`. -/
def scanImports (chunk chunkBase chunkName : String) :
    TsNodeList → Option Lit × Option Lit → Option Lit × Option Lit
  | .nil, acc => acc
  | .cons n t, (matched, fallback) =>
    match n with
    | .importDecl _ (some lit) _ =>
      let fallback2 := if fallback.isNone then some lit else fallback
      let matched2 :=
        if matched.isNone && specMatchesChunk lit.text chunk chunkBase chunkName then
          some lit
        else matched
      scanImports chunk chunkBase chunkName t (matched2, fallback2)
    | _ => scanImports chunk chunkBase chunkName t (matched, fallback)

/-- The multi-key source-text lookup: exact normalized path, then basename,
then the leading-`./`-prefixed variant.  Returns the resolved code (when any)
and the `resolvedFilePath` recorded in the diagnostic's location. -/
def lookupComponentCode (codeLookup : List (String × TsNodeList))
    (componentPath baseName : String) : Option TsNodeList × String :=
  match alGet codeLookup componentPath with
  | some code => (some code, componentPath)
  | none =>
    match alGet codeLookup baseName with
    | some code => (some code, baseName)
    | none =>
      match alGet codeLookup ("./" ++ componentPath) with
      | some code => (some code, componentPath)
      | none => (none, componentPath)

/-- The range of the emitted diagnostic: `{from: 0, to: 0}` when the source
text did not resolve or holds no import at all, and otherwise the offsets of
the matched (or fallback first) import specifier. -/
def rangeForComponent (codeOpt : Option TsNodeList) (chunk : String) : DiagRange :=
  match codeOpt with
  | none => ⟨0, 0⟩
  | some stmts =>
    let chunkBase := lastSegment chunk '/'
    let chunkName := stripJsLikeExt chunkBase
    match scanImports chunk chunkBase chunkName stmts (none, none) with
    | (some lit, _) => ⟨lit.startOff, lit.endOff⟩
    | (none, some lit) => ⟨lit.startOff, lit.endOff⟩
    | (none, none) => ⟨0, 0⟩

/-- The insertion-ordered set of candidate route labels for one component:
routes found in the route lookup under the component path, its basename, the
`./`-prefixed path and the resolved path, then the path-shape route unless it
is `/components`. -/
def routeCandidatesFor (routeLookup : List (String × List String))
    (componentPath baseName resolvedFilePath : String) : List String :=
  let addFromLookup := fun (acc : List String) (key : String) =>
    match alGet routeLookup (stripDotSlash key) with
    | some routes => routes.foldl (fun a r => if r ≠ "" then addUnique a r else a) acc
    | none => acc
  let acc := addFromLookup [] componentPath
  let acc := addFromLookup acc baseName
  let acc := addFromLookup acc ("./" ++ componentPath)
  let acc := addFromLookup acc resolvedFilePath
  match extractRouteFromComponentPath componentPath with
  | some r => if r ≠ "/components" then addUnique acc r else acc
  | none => acc

/-- The generated message: never user-authored, it names the chunk and the
sibling components (by basename) and recommends extraction or dynamic
imports. -/
def dupMessage (routeContext : Option String) (chunk : String)
    (otherComponents : List String) : String :=
  "Duplicate dependencies" ++
    (match routeContext with
     | some r => " in route '" ++ r ++ "'"
     | none => "") ++
    ": " ++ chunk ++ " " ++
    "(also imported by " ++
    String.intercalate ", " (otherComponents.map (fun comp => lastSegment comp '/')) ++
    "). " ++
    "Consider extracting shared code to a common module or using dynamic imports."

/-- The body of the per-component loop: resolve the source text, compute the
range, collect route candidates, and emit one result per route label (or one
unlabeled result). -/
def emitForComponent (codeLookup : List (String × TsNodeList))
    (routeLookup : List (String × List String)) (chunk : String)
    (components : List String) (componentPath : String) : List DupResult :=
  let otherComponents := components.filter (fun item => item ≠ componentPath)
  if otherComponents.isEmpty then []
  else
    let baseName := lastSegment componentPath '/'
    let resolved := lookupComponentCode codeLookup componentPath baseName
    let range := rangeForComponent resolved.1 chunk
    let routes := routeCandidatesFor routeLookup componentPath baseName resolved.2
    let routesToEmit : List (Option String) :=
      if routes.isEmpty then [none] else routes.map some
    routesToEmit.map (fun routeContext =>
      { key := baseName
        identity := componentPath ++ ":" ++ chunk ++ ":" ++
          String.intercalate "," otherComponents ++ ":" ++ routeContext.getD ""
        diag :=
          { rule := some "duplicate-dependencies"
            level := "warn"
            message := dupMessage routeContext chunk otherComponents
            loc := some { file := resolved.2, range := some range } } })

/-- The body of the per-chunk loop: skip chunks with fewer than two
components, sort the component set lexicographically, and emit for every
component in sorted order. -/
def processChunkEntry (codeLookup : List (String × TsNodeList))
    (routeLookup : List (String × List String)) (entry : String × List String) :
    List DupResult :=
  if entry.2.length < 2 then []
  else
    let components := sortStrings entry.2
    components.flatMap (emitForComponent codeLookup routeLookup entry.1 components)

/-- Model of `generateDuplicateDiagnostics`: build the chunk index from the
bundle records in input order (a `Map`, so chunks appear in first-occurrence
order), then process each chunk entry in that order. -/
def generateDuplicateDiagnostics (bundles : List Bundle)
    (codeLookup : List (String × TsNodeList))
    (routeLookup : List (String × List String)) : List DupResult :=
  if bundles.isEmpty then []
  else (buildChunkIndex bundles).flatMap (processChunkEntry codeLookup routeLookup)

/-! ## Diagnostic aggregation

Embedding of the multi-target branch of `POST` in the demo route: the
per-target reduction (`assignDiagnostic`, `addDurationForFile`), the
duplicate-dependency pass, and the final response assembly.  The per-target
analyzer (`analyzeTargetPayload`, which delegates to the external
`@rsc-xray/lsp-server` `analyze`) is abstracted as a function parameter. -/

/-- One per-target analysis outcome (`AnalyzedTargetResult`). -/
structure AnalyzedTargetResult where
  key : String
  diagnostics : List Diag
  duration : Nat
  rulesExecuted : List String
  version : String
deriving DecidableEq, Repr

/-- The mutable aggregation accumulators of the multi-target branch. -/
structure AggState where
  diagnosticsByFile : List (String × List Diag)
  durationsByFile : List (String × Nat)
  diagnosticKeysByFile : List (String × List String)
  durationContributorsByFile : List (String × List String)
deriving DecidableEq, Repr

/-- The empty aggregation state. -/
def initAggState : AggState := ⟨[], [], [], []⟩

/-- Model of `getDiagnosticKey`: the content key
`rule-or-suggestion | message | loc.file | range`. -/
def getDiagnosticKey (diag : Diag) : String :=
  let rule := match diag.rule with
    | some r => r
    | none => "suggestion"
  let locFile := match diag.loc with
    | some loc => loc.file
    | none => ""
  let rangeKey := match diag.loc with
    | some loc =>
      match loc.range with
      | some range => toString range.fromOff ++ ":" ++ toString range.toOff
      | none => ""
    | none => ""
  rule ++ "|" ++ diag.message ++ "|" ++ locFile ++ "|" ++ rangeKey

/-- Model of `addDurationForFile`: add the duration to the bucket unless this
contributor was already counted for this bucket. -/
def addDurationForFile (st : AggState) (fileKey : String) (duration : Nat)
    (contributorId : String) : AggState :=
  let contributors := (alGet st.durationContributorsByFile fileKey).getD []
  if contributorId ∈ contributors then st
  else
    { st with
      durationsByFile :=
        alSet st.durationsByFile fileKey
          ((alGet st.durationsByFile fileKey).getD 0 + duration)
      durationContributorsByFile :=
        alSet st.durationContributorsByFile fileKey (contributors ++ [contributorId]) }

/-- Model of `assignDiagnostic`: deduplicate by content key within the bucket,
append new diagnostics, and count the contributing duration in both cases. -/
def assignDiagnostic (st : AggState) (key : String) (diag : Diag) (duration : Nat)
    (contributorId : String) : AggState :=
  let diagKey := getDiagnosticKey diag
  let existingKeys := (alGet st.diagnosticKeysByFile key).getD []
  if diagKey ∈ existingKeys then addDurationForFile st key duration contributorId
  else
    let st1 :=
      { st with
        diagnosticKeysByFile := alSet st.diagnosticKeysByFile key (existingKeys ++ [diagKey])
        diagnosticsByFile :=
          alSet st.diagnosticsByFile key
            ((alGet st.diagnosticsByFile key).getD [] ++ [diag]) }
    addDurationForFile st1 key duration contributorId

/-- The bucket chosen for one diagnostic of one target: the target's key on an
exact or suffix path match, otherwise the location's non-empty basename,
otherwise the target's key. -/
def bucketForDiagnostic (entryKey : String) (diag : Diag) : String :=
  match diag.loc with
  | some loc =>
    let normalizedLoc := stripDotSlash loc.file
    let normalizedKey := stripDotSlash entryKey
    if normalizedLoc = normalizedKey ||
        strEnds normalizedLoc ("/" ++ normalizedKey) ||
        strEnds normalizedKey ("/" ++ normalizedLoc) then
      entryKey
    else
      let fileName := lastSegment normalizedLoc '/'
      if fileName ≠ "" then fileName else entryKey
  | none => entryKey

/-- The body of `analyses.forEach`: an entry with no diagnostics ensures its
own (possibly empty) bucket and counts its duration there; otherwise every
diagnostic is assigned to its bucket with the entry as contributor. -/
def processEntry (st : AggState) (entry : AnalyzedTargetResult) : AggState :=
  if entry.diagnostics.isEmpty then
    let st1 :=
      if (alGet st.diagnosticsByFile entry.key).isNone then
        { st with diagnosticsByFile := alSet st.diagnosticsByFile entry.key [] }
      else st
    addDurationForFile st1 entry.key entry.duration entry.key
  else
    entry.diagnostics.foldl
      (fun acc diag =>
        assignDiagnostic acc (bucketForDiagnostic entry.key diag) diag entry.duration
          entry.key)
      st

/-- The duplicate-diagnostics pass: skip identities already processed, then
assign with duration `0` and the identity as contributor. -/
def processDuplicates (st : AggState) (dups : List DupResult) : AggState :=
  (dups.foldl
    (fun (acc : AggState × List String) r =>
      if r.identity ∈ acc.2 then acc
      else (assignDiagnostic acc.1 r.key r.diag 0 r.identity, acc.2 ++ [r.identity]))
    (st, [])).1

/-- The `bundleMap` assembly: shared-context bundles first, then every
target's bundles, keyed by `filePath` (later records with the same path win,
keeping the first position). -/
def collectAllBundles (sharedBundles : List Bundle) (targets : List RawTarget) :
    List Bundle :=
  let m := sharedBundles.foldl (fun m b => alSet m b.filePath b) []
  let m := targets.foldl
    (fun m t => t.clientBundles.foldl (fun m b => alSet m b.filePath b) m) m
  m.map (fun p => p.2)

/-- The success response of the multi-target branch. -/
structure SuccessBody where
  diagnostics : List Diag
  diagnosticsByFile : List (String × List Diag)
  durationsByFile : List (String × Nat)
  duration : Nat
  rulesExecuted : List String
  version : String
deriving DecidableEq, Repr

/-- A failure response body: the `error` object plus whichever sibling fields
that particular response literal carries (`none` models an absent field). -/
structure ErrorBody where
  code : String
  message : String
  diagnostics : Option (List Diag)
  duration : Option Nat
  rulesExecuted : Option (List String)
  version : Option String
deriving DecidableEq, Repr

/-- The INVALID_REQUEST body of the multi-target branch (route lines 650-660):
only the `error` object, no `diagnostics` field. -/
def invalidMultiTargetBody : ErrorBody :=
  { code := "INVALID_REQUEST"
    message := "Each analysis target must include code and fileName"
    diagnostics := none
    duration := none
    rulesExecuted := none
    version := none }

/-- The INVALID_REQUEST body of the single-target branch (route lines
841-846): only the `error` object, no `diagnostics` field. -/
def invalidSingleTargetBody : ErrorBody :=
  { code := "INVALID_REQUEST"
    message := "Missing required fields: code, fileName"
    diagnostics := none
    duration := none
    rulesExecuted := none
    version := none }

/-- The INTERNAL_ERROR body built by the catch handler (route lines 879-891):
`diagnostics: []` and the other success-shaped fields alongside the `error`
object. -/
def internalErrorBody (message : String) : ErrorBody :=
  { code := "INTERNAL_ERROR"
    message := message
    diagnostics := some []
    duration := some 0
    rulesExecuted := some []
    version := some "0.6.0" }

/-- Outcome of the handler: an HTTP failure with its body, or a success
response. -/
inductive MultiOutcome where
  | failure (status : Nat) (body : ErrorBody)
  | success (body : SuccessBody)
deriving DecidableEq, Repr

/-- Structural validity of one target: `code` and `fileName` must be strings
(`find` over `body.analysisTargets`). -/
def isInvalidTarget (t : RawTarget) : Bool :=
  t.code.isNone || t.fileName.isNone

/-- The total duration, version and executed-rule set accumulated by
`analyses.forEach` (independent of the diagnostic accumulators). -/
def totalDurationOf (analyses : List AnalyzedTargetResult) : Nat :=
  analyses.foldl (fun acc e => acc + e.duration) 0

/-- The response `version`: starts from the first entry's version (default
`0.6.0`) and is replaced by every non-empty entry version in order. -/
def versionOf (analyses : List AnalyzedTargetResult) : String :=
  analyses.foldl (fun v e => if e.version = "" then v else e.version)
    ((analyses.head?.map (fun e => e.version)).getD "0.6.0")

/-- The insertion-ordered union of the entries' executed rules. -/
def rulesExecutedOf (analyses : List AnalyzedTargetResult) : List String :=
  analyses.foldl (fun acc e => e.rulesExecuted.foldl addUnique acc) []

/-- The multi-target branch of `POST` (route lines 643-839), entered when
`body.analysisTargets` is a non-empty array.  `analyzeFn` abstracts
`analyzeTargetPayload` (sanitization, the external `analyze`, and the
scenario-specific post-passes); `sharedBundles` is
`body.context.clientBundles`.  Rejects the whole batch before any analysis
when some target is structurally invalid; otherwise analyzes every target,
aggregates, runs the duplicate-dependency detector over the combined bundle
context, and assembles the success response. -/
def handleMultiTarget (analyzeFn : RawTarget → AnalyzedTargetResult)
    (sharedBundles : List Bundle) (targets : List RawTarget) : MultiOutcome :=
  if (targets.find? isInvalidTarget).isSome then
    .failure 400 invalidMultiTargetBody
  else
    let codeLookup := buildCodeLookup targets
    let routeLookup := buildRouteLookup targets
    let analyses := targets.map analyzeFn
    let st1 := analyses.foldl processEntry initAggState
    let bundleEntries := collectAllBundles sharedBundles targets
    let dups := generateDuplicateDiagnostics bundleEntries codeLookup routeLookup
    let st2 := processDuplicates st1 dups
    .success
      { diagnostics := (st2.diagnosticsByFile.map (fun p => p.2)).flatten
        diagnosticsByFile := st2.diagnosticsByFile
        durationsByFile := st2.durationsByFile
        duration := totalDurationOf analyses
        rulesExecuted := rulesExecutedOf analyses
        version := versionOf analyses }

/-- Whether one analyzed target contributes to a bucket: a target with no
diagnostics contributes (an empty bucket and its duration) to its own key, and
a target with diagnostics contributes to the bucket of each of them. -/
def contributesTo (e : AnalyzedTargetResult) (bucket : String) : Bool :=
  if e.diagnostics.isEmpty then e.key = bucket
  else e.diagnostics.any (fun d => bucketForDiagnostic e.key d = bucket)

/-- The payload of a success outcome (used by concrete witnesses; failure
outcomes yield an empty body). -/
def successBodyOf : MultiOutcome → SuccessBody
  | .success body => body
  | .failure _ _ => ⟨[], [], [], 0, [], ""⟩

/-! ## Association-list lemmas -/

theorem alGet_alSet_self {α : Type} (m : List (String × α)) (k : String) (v : α) :
    alGet (alSet m k v) k = some v := by
  induction m with
  | nil => simp [alGet, alSet]
  | cons p rest ih =>
    obtain ⟨k', v'⟩ := p
    by_cases h : k' = k
    · simp [alGet, alSet, h]
    · simp [alGet, alSet, h, ih]

theorem alGet_alSet_ne {α : Type} (m : List (String × α)) (k k' : String) (v : α)
    (h : k' ≠ k) : alGet (alSet m k v) k' = alGet m k' := by
  have h' : ¬k = k' := fun hk => h hk.symm
  induction m with
  | nil => simp [alGet, alSet, h']
  | cons p rest ih =>
    obtain ⟨k0, v0⟩ := p
    by_cases h0 : k0 = k
    · subst h0
      simp [alGet, alSet, h']
    · simp only [alSet, if_neg h0]
      by_cases h1 : k0 = k'
      · simp [alGet, h1]
      · simp [alGet, h1, ih]

theorem alGet_alSet {α : Type} (m : List (String × α)) (k k' : String) (v : α) :
    alGet (alSet m k v) k' = if k' = k then some v else alGet m k' := by
  by_cases h : k' = k
  · subst h; simp [alGet_alSet_self]
  · simp [h, alGet_alSet_ne m k k' v h]

/-! ## String-order lemmas

The lexicographic order `strLe` is total, antisymmetric and transitive, so
any comparison sort has a unique result: `sortStrings` applied to two
permutations of the same list yields the same sorted list. -/

theorem charListLe_total (a b : List Char) : charListLe a b = true ∨ charListLe b a = true := by
  induction a generalizing b with
  | nil => left; simp [charListLe]
  | cons x xs ih =>
    cases b with
    | nil => right; simp [charListLe]
    | cons y ys =>
      by_cases hxy : x < y
      · left; simp [charListLe, hxy]
      · by_cases hyx : y < x
        · right; simp [charListLe, hyx, hxy]
        · rcases ih ys with h | h
          · left; simp [charListLe, hxy, hyx, h]
          · right; simp [charListLe, hxy, hyx, h]

theorem charListLe_antisymm {a b : List Char} (hab : charListLe a b = true)
    (hba : charListLe b a = true) : a = b := by
  induction a generalizing b with
  | nil =>
    cases b with
    | nil => rfl
    | cons y ys => simp [charListLe] at hba
  | cons x xs ih =>
    cases b with
    | nil => simp [charListLe] at hab
    | cons y ys =>
      by_cases hxy : x < y
      · simp [charListLe, hxy, lt_asymm hxy] at hba
      · by_cases hyx : y < x
        · simp [charListLe, hxy, hyx] at hab
        · have hx : x = y := le_antisymm (not_lt.mp hyx) (not_lt.mp hxy)
          subst hx
          simp only [charListLe, if_neg hxy, if_neg hyx] at hab hba
          exact congrArg (x :: ·) (ih hab hba)

theorem charListLe_trans {a b c : List Char} (hab : charListLe a b = true)
    (hbc : charListLe b c = true) : charListLe a c = true := by
  induction a generalizing b c with
  | nil => simp [charListLe]
  | cons x xs ih =>
    cases b with
    | nil => simp [charListLe] at hab
    | cons y ys =>
      cases c with
      | nil => simp [charListLe] at hbc
      | cons z zs =>
        simp only [charListLe] at hab hbc ⊢
        by_cases hxy : x < y
        · by_cases hyz : y < z
          · simp [lt_trans hxy hyz]
          · by_cases hzy : z < y
            · simp [if_neg hyz, if_pos hzy] at hbc
            · have hyzeq : y = z := le_antisymm (not_lt.mp hzy) (not_lt.mp hyz)
              subst hyzeq
              simp [hxy]
        · by_cases hyx : y < x
          · simp [hxy, hyx] at hab
          · have hx : x = y := le_antisymm (not_lt.mp hyx) (not_lt.mp hxy)
            subst hx
            simp only [if_neg hxy, if_neg hyx] at hab
            by_cases hyz : x < z
            · simp [hyz]
            · by_cases hzy : z < x
              · simp [if_neg hyz, if_pos hzy] at hbc
              · simp only [if_neg hyz, if_neg hzy] at hbc ⊢
                exact ih hab hbc

theorem strLe_total (a b : String) : strLe a b = true ∨ strLe b a = true :=
  charListLe_total a.data b.data

theorem strLe_antisymm {a b : String} (hab : strLe a b = true) (hba : strLe b a = true) :
    a = b := by
  cases a; cases b
  exact congrArg String.mk (charListLe_antisymm hab hba)

theorem strLe_trans {a b c : String} (hab : strLe a b = true) (hbc : strLe b c = true) :
    strLe a c = true :=
  charListLe_trans hab hbc

/-- The sortedness predicate realized by `sortStrings`. -/
abbrev StrSorted (l : List String) : Prop := List.Sorted (fun a b => strLe a b = true) l

theorem insertSorted_perm (x : String) (l : List String) :
    (insertSorted x l).Perm (x :: l) := by
  induction l with
  | nil => simp [insertSorted]
  | cons y ys ih =>
    by_cases h : strLe x y = true
    · simp [insertSorted, h]
    · simp only [insertSorted, if_neg h]
      exact (ih.cons y).trans (List.Perm.swap x y ys)

theorem insertSorted_sorted (x : String) (l : List String) (hl : StrSorted l) :
    StrSorted (insertSorted x l) := by
  induction l with
  | nil => simp [insertSorted]
  | cons y ys ih =>
    by_cases h : strLe x y = true
    · simp only [insertSorted, if_pos h]
      refine List.sorted_cons.mpr ⟨?_, hl⟩
      intro b hb
      rcases List.mem_cons.mp hb with hb | hb
      · subst hb; exact h
      · exact strLe_trans h ((List.sorted_cons.mp hl).1 b hb)
    · have hyx : strLe y x = true := (strLe_total x y).resolve_left h
      simp only [insertSorted, if_neg h]
      have hys := (List.sorted_cons.mp hl).2
      refine List.sorted_cons.mpr ⟨?_, ih hys⟩
      intro b hb
      rcases List.mem_cons.mp ((insertSorted_perm x ys).mem_iff.mp hb) with hb2 | hb2
      · subst hb2; exact hyx
      · exact (List.sorted_cons.mp hl).1 b hb2

theorem sortStrings_perm (l : List String) : (sortStrings l).Perm l := by
  induction l with
  | nil => simp [sortStrings]
  | cons x xs ih =>
    simp only [sortStrings, List.foldr_cons]
    exact (insertSorted_perm x (xs.foldr insertSorted [])).trans (ih.cons x)

theorem sortStrings_sorted (l : List String) : StrSorted (sortStrings l) := by
  induction l with
  | nil => simp [sortStrings]
  | cons x xs ih => exact insertSorted_sorted x _ ih

theorem sortStrings_eq_of_perm {l₁ l₂ : List String} (h : l₁.Perm l₂) :
    sortStrings l₁ = sortStrings l₂ := by
  have hperm : (sortStrings l₁).Perm (sortStrings l₂) :=
    ((sortStrings_perm l₁).trans h).trans (sortStrings_perm l₂).symm
  exact @List.eq_of_perm_of_sorted String (fun a b => strLe a b = true)
    ⟨fun a b hab hba => strLe_antisymm hab hba⟩ _ _ hperm
    (sortStrings_sorted l₁) (sortStrings_sorted l₂)

/-! ## Duplicate-detector ordering (claim C3) -/

theorem generateDuplicateDiagnostics_as_flatMap (bundles : List Bundle)
    (codeLookup : List (String × TsNodeList)) (routeLookup : List (String × List String)) :
    generateDuplicateDiagnostics bundles codeLookup routeLookup =
      (buildChunkIndex bundles).flatMap (processChunkEntry codeLookup routeLookup) := by
  cases bundles with
  | nil => simp [generateDuplicateDiagnostics, buildChunkIndex]
  | cons b bs => simp [generateDuplicateDiagnostics]

theorem processChunkEntry_perm_congr (codeLookup : List (String × TsNodeList))
    (routeLookup : List (String × List String)) (p q : String × List String)
    (hchunk : p.1 = q.1) (hcomps : p.2.Perm q.2) :
    processChunkEntry codeLookup routeLookup p = processChunkEntry codeLookup routeLookup q := by
  obtain ⟨c₁, comps₁⟩ := p
  obtain ⟨c₂, comps₂⟩ := q
  simp only at hchunk hcomps
  subst hchunk
  simp only [processChunkEntry, hcomps.length_eq, sortStrings_eq_of_perm hcomps]

/-- Claim C3, counterexample: the detector does not process chunks in a fixed
lexicographic order — it processes them in first-occurrence order of the input
bundle records, so reordering the same bundle records changes the sequence of
emitted diagnostics.  The two inputs below are permutations of each other
(chunks `c1` and `c2` are each shared by `A.tsx` and `B.tsx`), yet the first
run emits the `c1` diagnostics first while the second emits the `c2`
diagnostics first. -/
theorem c3_chunk_order_counterexample :
    (([⟨"A.tsx", ["c1"]⟩, ⟨"B.tsx", ["c2", "c1"]⟩, ⟨"A.tsx", ["c2"]⟩] : List Bundle)).Perm
      [⟨"B.tsx", ["c2", "c1"]⟩, ⟨"A.tsx", ["c1"]⟩, ⟨"A.tsx", ["c2"]⟩] ∧
    generateDuplicateDiagnostics
        [⟨"A.tsx", ["c1"]⟩, ⟨"B.tsx", ["c2", "c1"]⟩, ⟨"A.tsx", ["c2"]⟩] [] [] ≠
      generateDuplicateDiagnostics
        [⟨"B.tsx", ["c2", "c1"]⟩, ⟨"A.tsx", ["c1"]⟩, ⟨"A.tsx", ["c2"]⟩] [] [] := by
  constructor
  · decide
  · decide

/-- Claim C3 (amended): within each chunk, the components sharing the chunk
are processed in a fixed lexicographic order — the detector's output is
invariant under any reordering of each chunk's component set, and therefore
identical across two runs whose bundle lists build chunk indexes with the same
chunks in the same first-occurrence order and the same component sets; chunk
processing order itself follows first occurrence in the input, not
lexicographic order. -/
theorem c3_duplicate_detector_component_order
    (bundles₁ bundles₂ : List Bundle) (codeLookup : List (String × TsNodeList))
    (routeLookup : List (String × List String))
    (h : List.Forall₂ (fun p q => p.1 = q.1 ∧ p.2.Perm q.2)
      (buildChunkIndex bundles₁) (buildChunkIndex bundles₂)) :
    generateDuplicateDiagnostics bundles₁ codeLookup routeLookup =
      generateDuplicateDiagnostics bundles₂ codeLookup routeLookup := by
  rw [generateDuplicateDiagnostics_as_flatMap, generateDuplicateDiagnostics_as_flatMap]
  generalize buildChunkIndex bundles₁ = idx₁ at h
  generalize buildChunkIndex bundles₂ = idx₂ at h
  induction h with
  | nil => rfl
  | cons hpq _ ih =>
    simp only [List.flatMap_cons, ih,
      processChunkEntry_perm_congr codeLookup routeLookup _ _ hpq.1 hpq.2]

/-- Claim C3 witness: two concrete bundle lists that record the sharing of
chunk `c` by `A.tsx` and `B.tsx` in opposite orders produce identical
diagnostic sequences. -/
theorem c3_duplicate_detector_component_order_witness :
    generateDuplicateDiagnostics [⟨"B.tsx", ["c"]⟩, ⟨"A.tsx", ["c"]⟩] [] [] =
      generateDuplicateDiagnostics [⟨"A.tsx", ["c"]⟩, ⟨"B.tsx", ["c"]⟩] [] [] :=
  c3_duplicate_detector_component_order _ _ [] []
    (List.Forall₂.cons ⟨rfl, by decide⟩ List.Forall₂.nil)

/-! ## Duplicate-detector location invariant (claim C10) -/

theorem emitForComponent_loc (codeLookup : List (String × TsNodeList))
    (routeLookup : List (String × List String)) (chunk : String)
    (components : List String) (componentPath : String) (r : DupResult)
    (hr : r ∈ emitForComponent codeLookup routeLookup chunk components componentPath) :
    r.diag.loc =
      some ⟨(lookupComponentCode codeLookup componentPath (lastSegment componentPath '/')).2,
        some (rangeForComponent
          (lookupComponentCode codeLookup componentPath (lastSegment componentPath '/')).1
          chunk)⟩ := by
  unfold emitForComponent at hr
  simp at hr
  obtain ⟨-, a, -, hrec⟩ := hr
  subst hrec
  rfl

/-- Claim C10: every diagnostic emitted by the duplicate-dependency detector
carries a location with a defined range — the range computed from the
component's resolved source text (matched or fallback first import specifier
offsets), and the explicit `{from: 0, to: 0}` when the source text does not
resolve through the multi-key lookup (or resolves but has no import). -/
theorem c10_duplicate_diag_has_range :
    (∀ (bundles : List Bundle) (codeLookup : List (String × TsNodeList))
        (routeLookup : List (String × List String)) (r : DupResult),
      r ∈ generateDuplicateDiagnostics bundles codeLookup routeLookup →
        ∃ loc rg, r.diag.loc = some loc ∧ loc.range = some rg) ∧
    (∀ (codeLookup : List (String × TsNodeList))
        (routeLookup : List (String × List String)) (chunk : String)
        (components : List String) (componentPath : String) (r : DupResult),
      r ∈ emitForComponent codeLookup routeLookup chunk components componentPath →
        r.diag.loc =
          some ⟨(lookupComponentCode codeLookup componentPath
              (lastSegment componentPath '/')).2,
            some (rangeForComponent
              (lookupComponentCode codeLookup componentPath
                (lastSegment componentPath '/')).1 chunk)⟩) ∧
    (∀ chunk : String, rangeForComponent none chunk = ⟨0, 0⟩) := by
  refine ⟨?_, emitForComponent_loc, fun _ => rfl⟩
  intro bundles codeLookup routeLookup r hr
  rw [generateDuplicateDiagnostics_as_flatMap] at hr
  obtain ⟨entry, _, hentry⟩ := List.mem_flatMap.mp hr
  unfold processChunkEntry at hentry
  by_cases hlen : entry.2.length < 2
  · simp [hlen] at hentry
  · simp only [hlen, if_false] at hentry
    obtain ⟨path, _, hpath⟩ := List.mem_flatMap.mp hentry
    exact ⟨_, _, emitForComponent_loc _ _ _ _ _ _ hpath, rfl⟩

/-- Claim C10 witness: a concrete detector run (two bundles sharing chunk `c`,
no resolvable source text) whose first emitted diagnostic indeed carries a
defined range. -/
theorem c10_duplicate_diag_has_range_witness :
    ∃ loc rg,
      (⟨"A.tsx", "A.tsx:c:B.tsx:",
        { rule := some "duplicate-dependencies"
          level := "warn"
          message := dupMessage none "c" ["B.tsx"]
          loc := some ⟨"A.tsx", some ⟨0, 0⟩⟩ }⟩ : DupResult).diag.loc = some loc ∧
      loc.range = some rg :=
  c10_duplicate_diag_has_range.1 [⟨"A.tsx", ["c"]⟩, ⟨"B.tsx", ["c"]⟩] [] [] _ (by decide)

/-! ## Context sanitization (claim C7) -/

/-- Claim C7: sanitization strips `routeConfig` from a target's effective
context exactly when the file name is not a recognized route-segment file
name (matched as an exact basename or as a `/`-separated path suffix), and
preserves every other context field unchanged in either case.  The last three
conjuncts exhibit the two match modes and a non-match of
`isRouteSegmentFile`. -/
theorem c7_sanitize_context :
    (∀ (ctx : ContextModel) (fileName : String),
      routeConfigOf (sanitizeContextForTarget (some ctx) fileName) =
          (if isRouteSegmentFile fileName then ctx.routeConfig else none) ∧
        othersOf (sanitizeContextForTarget (some ctx) fileName) = ctx.others) ∧
    (∀ fileName : String, sanitizeContextForTarget none fileName = none) ∧
    isRouteSegmentFile "page.tsx" = true ∧
    isRouteSegmentFile "app/dashboard/nested/page.tsx" = true ∧
    isRouteSegmentFile "SharedComponent.tsx" = false := by
  refine ⟨?_, fun _ => rfl, by decide, by decide, by decide⟩
  intro ctx fileName
  unfold sanitizeContextForTarget
  by_cases hrc : ctx.routeConfig = none
  · simp [hrc, routeConfigOf, othersOf]
  · by_cases hseg : isRouteSegmentFile fileName
    · simp [hrc, hseg, routeConfigOf, othersOf]
    · by_cases hrest : ctx.others.length > 0
      · simp [hrc, hseg, hrest, routeConfigOf, othersOf]
      · have : ctx.others = [] := List.length_eq_zero.mp (Nat.le_zero.mp (not_lt.mp hrest))
        simp [hrc, hseg, hrest, routeConfigOf, othersOf, this]

/-! ## Forbidden-module matching (claim C9) -/

theorem normalizeModule_node_prefixed (m : String) : normalizeModule ("node:" ++ m) = m := by
  have hstart : strStarts ("node:" ++ m) "node:" = true := by
    simp [strStarts, String.data_append, isLead]
  have hdata : ("node:" ++ m).data = "node:".data ++ m.data := String.data_append _ _
  unfold normalizeModule
  rw [if_pos hstart]
  unfold strDrop
  rw [hdata]
  rw [List.drop_left' (by decide)]

theorem normalizeModule_bare (m : String) (h : strStarts m "node:" = false) :
    normalizeModule m = m := by
  unfold normalizeModule
  simp [h]

/-- Claim C9: a module specifier is forbidden exactly when the specifier
itself, or the specifier with a leading `node:` scheme stripped, is in the
denylist; stripping is exact (`node:` ++ m normalizes to m); and consequently
a `node:`-prefixed specifier is flagged exactly as the bare name whenever the
denylist itself holds no `node:`-prefixed entry (as the default denylist does
not). -/
theorem c9_node_scheme_equivalence :
    (∀ (m : String) (modules : List String),
      isForbiddenModule m modules = true ↔ m ∈ modules ∨ normalizeModule m ∈ modules) ∧
    (∀ m : String, normalizeModule ("node:" ++ m) = m) ∧
    (∀ (m : String) (modules : List String),
      ("node:" ++ m) ∉ modules → strStarts m "node:" = false →
        isForbiddenModule ("node:" ++ m) modules = isForbiddenModule m modules) := by
  refine ⟨?_, normalizeModule_node_prefixed, ?_⟩
  · intro m modules
    simp [isForbiddenModule]
  · intro m modules hmem hbare
    unfold isForbiddenModule
    rw [normalizeModule_node_prefixed, normalizeModule_bare m hbare]
    have h1 : modules.contains ("node:" ++ m) = false := by simp [hmem]
    simp only [h1, Bool.false_or, Bool.or_self]

/-- Claim C9 witness: with the default denylist, `node:fs` is flagged exactly
as `fs` (and both are flagged). -/
theorem c9_node_scheme_equivalence_witness :
    isForbiddenModule ("node:" ++ "fs") DEFAULT_MODULES = isForbiddenModule "fs" DEFAULT_MODULES ∧
      isForbiddenModule "node:fs" DEFAULT_MODULES = true :=
  ⟨c9_node_scheme_equivalence.2.2 "fs" DEFAULT_MODULES (by decide) (by decide), by decide⟩

/-! ## Forbidden-import exhaustiveness (claim C6) -/

mutual

theorem visitNode_eq_hits (modules : List String) (fileName : String) :
    ∀ n : TsNode, visitNode modules fileName n =
      (forbiddenHitsNode modules n).map (fun p => createDiagnostic fileName p.2 p.2.text)
  | .importDecl s spec cs => by
    cases spec with
    | none =>
      simp [visitNode, forbiddenHitsNode, visitChildren_eq_hits modules fileName cs]
    | some lit =>
      by_cases hf : isForbiddenModule lit.text modules = true
      · simp [visitNode, forbiddenHitsNode, hf, visitChildren_eq_hits modules fileName cs]
      · simp [visitNode, forbiddenHitsNode, hf, visitChildren_eq_hits modules fileName cs]
  | .requireCall arg cs => by
    cases arg with
    | none =>
      simp [visitNode, forbiddenHitsNode, visitChildren_eq_hits modules fileName cs]
    | some lit =>
      by_cases hf : isForbiddenModule lit.text modules = true
      · simp [visitNode, forbiddenHitsNode, hf, visitChildren_eq_hits modules fileName cs]
      · simp [visitNode, forbiddenHitsNode, hf, visitChildren_eq_hits modules fileName cs]
  | .otherNode cs => by
    simp [visitNode, forbiddenHitsNode, visitChildren_eq_hits modules fileName cs]

theorem visitChildren_eq_hits (modules : List String) (fileName : String) :
    ∀ l : TsNodeList, visitChildren modules fileName l =
      (forbiddenHitsList modules l).map (fun p => createDiagnostic fileName p.2 p.2.text)
  | .nil => by simp [visitChildren, forbiddenHitsList]
  | .cons h t => by
    simp [visitChildren, forbiddenHitsList, visitNode_eq_hits modules fileName h,
      visitChildren_eq_hits modules fileName t]

end

/-- Well-formedness of one hit: for an import declaration, the statement
starts strictly before its module-specifier string literal (true of every
parse, since the `import` keyword precedes the specifier). -/
def hitBeforeSpec (p : Option Nat × Lit) : Bool :=
  match p.1 with
  | some s => s < p.2.startOff
  | none => true

/-- Claim C6: for a file classified client, the forbidden-import rule produces
exactly one error diagnostic per offending specifier occurrence (so N distinct
denylisted modules, each imported by its own static import or `require()`
call, yield exactly N diagnostics), and each diagnostic's range is exactly its
own specifier's offsets — in particular never the enclosing import statement's
start. -/
theorem c6_forbidden_import_exhaustive (file : SourceFileModel)
    (forbiddenModules : Option (List String))
    (hclient : classifyComponent file = .client)
    (hwf : ∀ p ∈ forbiddenHitsList (resolveModuleSet forbiddenModules) file.statements,
      hitBeforeSpec p = true) :
    (analyzeClientFileForForbiddenImports file forbiddenModules).length =
        (forbiddenHitsList (resolveModuleSet forbiddenModules) file.statements).length ∧
      List.Forall₂
        (fun (p : Option Nat × Lit) (d : Diag) =>
          d.rule = some "client-forbidden-import" ∧ d.level = "error" ∧
            d.loc = some ⟨file.fileName, some ⟨p.2.startOff, p.2.endOff⟩⟩ ∧
            ∀ s, p.1 = some s → p.2.startOff ≠ s)
        (forbiddenHitsList (resolveModuleSet forbiddenModules) file.statements)
        (analyzeClientFileForForbiddenImports file forbiddenModules) := by
  have hout : analyzeClientFileForForbiddenImports file forbiddenModules =
      (forbiddenHitsList (resolveModuleSet forbiddenModules) file.statements).map
        (fun p => createDiagnostic file.fileName p.2 p.2.text) := by
    unfold analyzeClientFileForForbiddenImports
    rw [if_neg (by simp [hclient])]
    unfold analyzeSource
    rw [visitNode_eq_hits]
    rfl
  rw [hout]
  refine ⟨by simp, ?_⟩
  rw [List.forall₂_map_right_iff]
  rw [List.forall₂_same]
  intro p hp
  refine ⟨rfl, rfl, rfl, ?_⟩
  intro s hs
  have := hwf p hp
  unfold hitBeforeSpec at this
  rw [hs] at this
  simp only [decide_eq_true_eq] at this
  exact Nat.ne_of_gt this

/-- Claim C6 witness: a client file with three imports — `fs` (static import,
statement start 14, specifier at 29-33), `react` (not denylisted) and a
`require('path')` call (specifier at 80-86) — yields exactly two diagnostics,
one per denylisted specifier. -/
theorem c6_forbidden_import_exhaustive_witness :
    (analyzeClientFileForForbiddenImports
        { fileName := "Client.tsx"
          leadingDirective := some "use client"
          statements := .cons (.importDecl 14 (some ⟨"fs", 29, 33⟩) .nil)
            (.cons (.importDecl 35 (some ⟨"react", 55, 62⟩) .nil)
              (.cons (.requireCall (some ⟨"path", 80, 86⟩) .nil) .nil)) }
        none).length =
      (forbiddenHitsList (resolveModuleSet none)
        (.cons (.importDecl 14 (some ⟨"fs", 29, 33⟩) .nil)
          (.cons (.importDecl 35 (some ⟨"react", 55, 62⟩) .nil)
            (.cons (.requireCall (some ⟨"path", 80, 86⟩) .nil) .nil)))).length ∧
    (forbiddenHitsList (resolveModuleSet none)
        (.cons (.importDecl 14 (some ⟨"fs", 29, 33⟩) .nil)
          (.cons (.importDecl 35 (some ⟨"react", 55, 62⟩) .nil)
            (.cons (.requireCall (some ⟨"path", 80, 86⟩) .nil) .nil)))).length = 2 :=
  ⟨(c6_forbidden_import_exhaustive _ none (by decide) (by decide)).1, by decide⟩

/-! ## Failure-response shapes (claim C1) and batch rejection (claim C8) -/

/-- Claim C1, counterexample: an INVALID_REQUEST failure (here: a multi-target
batch whose only target lacks `code`) answers with a body that has no
`diagnostics` field at all, refuting the claim that every failure response
carries `diagnostics: []`. -/
theorem c1_invalid_request_no_diagnostics_counterexample :
    handleMultiTarget
        (fun _ => ⟨"demo.tsx", [], 0, [], "0.6.0"⟩) []
        [{ fileKey := none, fileName := some "demo.tsx", code := none,
           clientBundles := [], route := none }] =
      .failure 400 invalidMultiTargetBody ∧
    invalidMultiTargetBody.diagnostics = none := by
  constructor
  · rfl
  · rfl

/-- Claim C1 (amended): only the INTERNAL_ERROR response carries a
`diagnostics: []` field alongside the `error: { code, message }` object; the
two INVALID_REQUEST rejections (single-target missing code or fileName, and a
structurally invalid target in a multi-target batch) answer with the `error`
object alone and no `diagnostics` field. -/
theorem c1_failure_response_shapes (message : String) :
    (internalErrorBody message).diagnostics = some [] ∧
      (internalErrorBody message).code = "INTERNAL_ERROR" ∧
      invalidMultiTargetBody.diagnostics = none ∧
      invalidMultiTargetBody.code = "INVALID_REQUEST" ∧
      invalidSingleTargetBody.diagnostics = none ∧
      invalidSingleTargetBody.code = "INVALID_REQUEST" :=
  ⟨rfl, rfl, rfl, rfl, rfl, rfl⟩

/-- Claim C8: a multi-target batch with a structurally invalid target (missing
string `code` or string `fileName`) is rejected whole with one INVALID_REQUEST
failure, HTTP 400.  The rejection is independent of the per-target analyzer
function — no target is analyzed and no per-target result is produced. -/
theorem c8_invalid_batch_rejected_whole (targets : List RawTarget)
    (sharedBundles : List Bundle)
    (h : ∃ t ∈ targets, isInvalidTarget t = true) :
    ∀ analyzeFn : RawTarget → AnalyzedTargetResult,
      handleMultiTarget analyzeFn sharedBundles targets =
        .failure 400 invalidMultiTargetBody := by
  intro analyzeFn
  unfold handleMultiTarget
  rw [if_pos]
  obtain ⟨t, ht, hinv⟩ := h
  rw [List.find?_isSome]
  exact ⟨t, ht, hinv⟩

/-- Claim C8 witness: a concrete two-target batch whose second target lacks
`fileName` is rejected with the INVALID_REQUEST failure under a concrete
analyzer. -/
theorem c8_invalid_batch_rejected_whole_witness :
    handleMultiTarget (fun _ => ⟨"A.tsx", [], 7, ["rule"], "0.6.0"⟩) []
        [{ fileKey := some "A.tsx", fileName := some "A.tsx", code := some .nil,
           clientBundles := [], route := none },
         { fileKey := none, fileName := none, code := some .nil,
           clientBundles := [], route := none }] =
      .failure 400 invalidMultiTargetBody :=
  c8_invalid_batch_rejected_whole _ []
    ⟨{ fileKey := none, fileName := none, code := some .nil,
       clientBundles := [], route := none }, by simp, rfl⟩ _

/-! ## Aggregation-state accessors and effect lemmas (claims C2, C4, C5) -/

/-- The diagnostic bucket of a key (`diagnosticsByFile[k]`). -/
def bucketOf (st : AggState) (k : String) : Option (List Diag) :=
  alGet st.diagnosticsByFile k

/-- The recorded content keys of a bucket (`diagnosticKeysByFile.get(k)`,
empty when absent). -/
def keysOf (st : AggState) (k : String) : List String :=
  (alGet st.diagnosticKeysByFile k).getD []

/-- The accumulated duration of a bucket (`durationsByFile[k] ?? 0`). -/
def durOf (st : AggState) (k : String) : Nat :=
  (alGet st.durationsByFile k).getD 0

/-- The recorded duration contributors of a bucket. -/
def contribsOf (st : AggState) (k : String) : List String :=
  (alGet st.durationContributorsByFile k).getD []

theorem addDurationForFile_diag_fields (st : AggState) (k : String) (d : Nat) (c : String) :
    (addDurationForFile st k d c).diagnosticsByFile = st.diagnosticsByFile ∧
      (addDurationForFile st k d c).diagnosticKeysByFile = st.diagnosticKeysByFile := by
  unfold addDurationForFile
  by_cases hc : c ∈ (alGet st.durationContributorsByFile k).getD []
  · simp [hc]
  · simp [hc]

theorem durOf_addDurationForFile (st : AggState) (k : String) (d : Nat) (c : String)
    (B : String) :
    durOf (addDurationForFile st k d c) B =
      durOf st B + (if B = k ∧ c ∉ contribsOf st k then d else 0) := by
  unfold addDurationForFile contribsOf
  by_cases hc : c ∈ (alGet st.durationContributorsByFile k).getD []
  · simp [hc]
  · by_cases hB : B = k
    · subst hB
      simp only [hc, if_neg, durOf]
      simp [alGet_alSet_self, hc]
    · simp only [hc, if_neg, durOf]
      simp [alGet_alSet_ne _ _ _ _ hB, hB]

theorem contribsOf_addDurationForFile (st : AggState) (k : String) (d : Nat) (c : String)
    (B : String) :
    contribsOf (addDurationForFile st k d c) B =
      contribsOf st B ++ (if B = k ∧ c ∉ contribsOf st k then [c] else []) := by
  unfold addDurationForFile contribsOf
  by_cases hc : c ∈ (alGet st.durationContributorsByFile k).getD []
  · simp [hc]
  · by_cases hB : B = k
    · subst hB
      simp only [hc, if_neg]
      simp [alGet_alSet_self, hc]
    · simp only [hc, if_neg]
      simp [alGet_alSet_ne _ _ _ _ hB, hB]

theorem addDurationForFile_same_dur_fields (st st' : AggState) (k : String) (d : Nat)
    (c : String) (hdur : st'.durationsByFile = st.durationsByFile)
    (hcon : st'.durationContributorsByFile = st.durationContributorsByFile) :
    (addDurationForFile st' k d c).durationsByFile =
        (addDurationForFile st k d c).durationsByFile ∧
      (addDurationForFile st' k d c).durationContributorsByFile =
        (addDurationForFile st k d c).durationContributorsByFile := by
  unfold addDurationForFile
  rw [hdur, hcon]
  by_cases hc : c ∈ (alGet st.durationContributorsByFile k).getD []
  · simp [hc, hdur, hcon]
  · simp [hc, hdur, hcon]

theorem assignDiagnostic_dur_fields (st : AggState) (k : String) (diag : Diag)
    (dur : Nat) (c : String) :
    (assignDiagnostic st k diag dur c).durationsByFile =
        (addDurationForFile st k dur c).durationsByFile ∧
      (assignDiagnostic st k diag dur c).durationContributorsByFile =
        (addDurationForFile st k dur c).durationContributorsByFile := by
  unfold assignDiagnostic
  by_cases hk : getDiagnosticKey diag ∈ (alGet st.diagnosticKeysByFile k).getD []
  · simp [hk]
  · simp only [hk, if_neg]
    simp only [if_false]
    exact addDurationForFile_same_dur_fields st _ k dur c rfl rfl

theorem durOf_assignDiagnostic (st : AggState) (k : String) (diag : Diag) (dur : Nat)
    (c : String) (B : String) :
    durOf (assignDiagnostic st k diag dur c) B =
      durOf st B + (if B = k ∧ c ∉ contribsOf st k then dur else 0) := by
  have h := (assignDiagnostic_dur_fields st k diag dur c).1
  unfold durOf
  rw [h]
  exact durOf_addDurationForFile st k dur c B

theorem contribsOf_assignDiagnostic (st : AggState) (k : String) (diag : Diag) (dur : Nat)
    (c : String) (B : String) :
    contribsOf (assignDiagnostic st k diag dur c) B =
      contribsOf st B ++ (if B = k ∧ c ∉ contribsOf st k then [c] else []) := by
  have h := (assignDiagnostic_dur_fields st k diag dur c).2
  unfold contribsOf
  rw [h]
  exact contribsOf_addDurationForFile st k dur c B

/-! ## Duration accounting (claim C5) -/

theorem contributesTo_iff (e : AnalyzedTargetResult) (B : String) :
    contributesTo e B = true ↔
      (if e.diagnostics.isEmpty then e.key = B
       else ∃ d ∈ e.diagnostics, bucketForDiagnostic e.key d = B) := by
  unfold contributesTo
  by_cases h : e.diagnostics.isEmpty <;> simp [h, List.any_eq_true]

theorem foldAssign_dur_effect (key : String) (dur : Nat) (cid : String)
    (ds : List Diag) (st : AggState) (B : String) :
    durOf (ds.foldl (fun acc diag =>
        assignDiagnostic acc (bucketForDiagnostic key diag) diag dur cid) st) B =
      durOf st B +
        (if (∃ d ∈ ds, bucketForDiagnostic key d = B) ∧ cid ∉ contribsOf st B then dur
         else 0) ∧
    contribsOf (ds.foldl (fun acc diag =>
        assignDiagnostic acc (bucketForDiagnostic key diag) diag dur cid) st) B =
      contribsOf st B ++
        (if (∃ d ∈ ds, bucketForDiagnostic key d = B) ∧ cid ∉ contribsOf st B then [cid]
         else []) := by
  induction ds generalizing st with
  | nil => simp
  | cons d ds ih =>
    simp only [List.foldl_cons]
    obtain ⟨ihd, ihc⟩ :=
      ih (assignDiagnostic st (bucketForDiagnostic key d) d dur cid)
    rw [ihd, ihc, durOf_assignDiagnostic, contribsOf_assignDiagnostic]
    by_cases hmem : cid ∈ contribsOf st B
    · have hmem' :
          cid ∈ contribsOf st B ++
            (if B = bucketForDiagnostic key d ∧
                cid ∉ contribsOf st (bucketForDiagnostic key d) then [cid] else []) :=
        List.mem_append_left _ hmem
      have hhead : ¬(B = bucketForDiagnostic key d ∧
          cid ∉ contribsOf st (bucketForDiagnostic key d)) := by
        rintro ⟨hB, hnot⟩
        exact hnot (hB ▸ hmem)
      simp [hhead, hmem, hmem']
    · by_cases hBd : B = bucketForDiagnostic key d
      · have hhead : B = bucketForDiagnostic key d ∧
            cid ∉ contribsOf st (bucketForDiagnostic key d) := ⟨hBd, hBd ▸ hmem⟩
        have hmem' : cid ∈ contribsOf st B ++
            (if B = bucketForDiagnostic key d ∧
                cid ∉ contribsOf st (bucketForDiagnostic key d) then [cid] else []) := by
          rw [if_pos hhead]
          exact List.mem_append_right _ (List.mem_singleton.mpr rfl)
        have hex : ∃ x ∈ d :: ds, bucketForDiagnostic key x = B :=
          ⟨d, List.mem_cons_self d ds, hBd.symm⟩
        simp [hhead, hmem', hex, hmem]
      · have hhead : ¬(B = bucketForDiagnostic key d ∧
            cid ∉ contribsOf st (bucketForDiagnostic key d)) := by
          rintro ⟨hB, -⟩
          exact hBd hB
        have hset : contribsOf st B ++
            (if B = bucketForDiagnostic key d ∧
                cid ∉ contribsOf st (bucketForDiagnostic key d) then [cid] else []) =
            contribsOf st B := by simp [hhead]
        have hcons : (∃ x ∈ d :: ds, bucketForDiagnostic key x = B) ↔
            (∃ x ∈ ds, bucketForDiagnostic key x = B) := by
          constructor
          · rintro ⟨x, hx, hbx⟩
            rcases List.mem_cons.mp hx with hx | hx
            · exact absurd (hx ▸ hbx).symm hBd
            · exact ⟨x, hx, hbx⟩
          · rintro ⟨x, hx, hbx⟩
            exact ⟨x, List.mem_cons_of_mem d hx, hbx⟩
        rw [hset]
        have hne : ¬bucketForDiagnostic key d = B := fun h => hBd h.symm
        simp [hhead, hcons, hne]

theorem processEntry_dur_effect (st : AggState) (e : AnalyzedTargetResult) (B : String) :
    durOf (processEntry st e) B =
      durOf st B +
        (if contributesTo e B = true ∧ e.key ∉ contribsOf st B then e.duration else 0) ∧
    contribsOf (processEntry st e) B =
      contribsOf st B ++
        (if contributesTo e B = true ∧ e.key ∉ contribsOf st B then [e.key] else []) := by
  unfold processEntry
  by_cases hempty : e.diagnostics.isEmpty
  · have hco : contributesTo e B = true ↔ e.key = B := by
      rw [contributesTo_iff, if_pos hempty]
    have hiff : (B = e.key ∧ e.key ∉ contribsOf st e.key) ↔
        (contributesTo e B = true ∧ e.key ∉ contribsOf st B) := by
      constructor
      · rintro ⟨hB, hn⟩
        subst hB
        exact ⟨hco.mpr rfl, hn⟩
      · rintro ⟨hc1, hn⟩
        have hB : e.key = B := hco.mp hc1
        subst hB
        exact ⟨rfl, hn⟩
    rw [if_pos hempty]
    have hfields :
        (if (alGet st.diagnosticsByFile e.key).isNone then
            { st with diagnosticsByFile := alSet st.diagnosticsByFile e.key [] }
          else st).durationsByFile = st.durationsByFile ∧
        (if (alGet st.diagnosticsByFile e.key).isNone then
            { st with diagnosticsByFile := alSet st.diagnosticsByFile e.key [] }
          else st).durationContributorsByFile = st.durationContributorsByFile := by
      by_cases hb : (alGet st.diagnosticsByFile e.key).isNone <;> simp [hb]
    have hsame := addDurationForFile_same_dur_fields st _ e.key e.duration e.key
      hfields.1 hfields.2
    constructor
    · have hdd : durOf (addDurationForFile
          (if (alGet st.diagnosticsByFile e.key).isNone then
              { st with diagnosticsByFile := alSet st.diagnosticsByFile e.key [] }
            else st) e.key e.duration e.key) B =
          durOf (addDurationForFile st e.key e.duration e.key) B := by
        unfold durOf
        rw [hsame.1]
      rw [hdd, durOf_addDurationForFile]
      exact congrArg (durOf st B + ·) (if_congr hiff rfl rfl)
    · have hcc : contribsOf (addDurationForFile
          (if (alGet st.diagnosticsByFile e.key).isNone then
              { st with diagnosticsByFile := alSet st.diagnosticsByFile e.key [] }
            else st) e.key e.duration e.key) B =
          contribsOf (addDurationForFile st e.key e.duration e.key) B := by
        unfold contribsOf
        rw [hsame.2]
      rw [hcc, contribsOf_addDurationForFile]
      exact congrArg (contribsOf st B ++ ·) (if_congr hiff rfl rfl)
  · have hco : contributesTo e B = true ↔
        ∃ d ∈ e.diagnostics, bucketForDiagnostic e.key d = B := by
      rw [contributesTo_iff, if_neg hempty]
    have hiff : ((∃ d ∈ e.diagnostics, bucketForDiagnostic e.key d = B) ∧
        e.key ∉ contribsOf st B) ↔
        (contributesTo e B = true ∧ e.key ∉ contribsOf st B) :=
      and_congr_left' hco.symm
    rw [if_neg hempty]
    obtain ⟨hd, hc⟩ := foldAssign_dur_effect e.key e.duration e.key e.diagnostics st B
    rw [hd, hc]
    exact ⟨congrArg (durOf st B + ·) (if_congr hiff rfl rfl),
      congrArg (contribsOf st B ++ ·) (if_congr hiff rfl rfl)⟩

theorem foldEntries_dur_effect (analyses : List AnalyzedTargetResult) (st : AggState)
    (hnd : (analyses.map (fun e => e.key)).Nodup)
    (hfresh : ∀ e ∈ analyses, ∀ B', e.key ∉ contribsOf st B') :
    (∀ B, durOf (analyses.foldl processEntry st) B =
      durOf st B +
        ((analyses.filter (fun e => contributesTo e B)).map (fun e => e.duration)).sum) ∧
    (∀ B' x, x ∈ contribsOf (analyses.foldl processEntry st) B' →
      x ∈ contribsOf st B' ∨ x ∈ analyses.map (fun e => e.key)) := by
  induction analyses generalizing st with
  | nil => simp
  | cons e l ih =>
    have hndl : (l.map (fun e => e.key)).Nodup := (List.nodup_cons.mp hnd).2
    have hkey_notin : e.key ∉ l.map (fun e => e.key) := (List.nodup_cons.mp hnd).1
    have hfresh_e : ∀ B', e.key ∉ contribsOf st B' := hfresh e (List.mem_cons_self e l)
    have hcontrib_e : ∀ B, contribsOf (processEntry st e) B =
        contribsOf st B ++
          (if contributesTo e B = true ∧ e.key ∉ contribsOf st B then [e.key] else []) :=
      fun B => (processEntry_dur_effect st e B).2
    have hfresh' : ∀ e' ∈ l, ∀ B', e'.key ∉ contribsOf (processEntry st e) B' := by
      intro e' he' B'
      rw [hcontrib_e B']
      intro hmem
      rcases List.mem_append.mp hmem with hmem | hmem
      · exact hfresh e' (List.mem_cons_of_mem e he') B' hmem
      · have hx : e'.key = e.key := by
          by_cases hc : contributesTo e B' = true ∧ e.key ∉ contribsOf st B'
          · rw [if_pos hc] at hmem
            exact List.mem_singleton.mp hmem
          · rw [if_neg hc] at hmem
            exact absurd hmem (List.not_mem_nil _)
        exact hkey_notin (hx ▸ List.mem_map_of_mem (fun e => e.key) he')
    obtain ⟨ihd, ihc⟩ := ih (processEntry st e) hndl hfresh'
    constructor
    · intro B
      simp only [List.foldl_cons]
      rw [ihd B, (processEntry_dur_effect st e B).1]
      have hcond : (contributesTo e B = true ∧ e.key ∉ contribsOf st B) ↔
          contributesTo e B = true := by
        constructor
        · exact fun h => h.1
        · exact fun h => ⟨h, hfresh_e B⟩
      rw [List.filter_cons]
      by_cases hc : contributesTo e B = true
      · rw [if_pos hc, if_pos (hcond.mpr hc)]
        simp [Nat.add_assoc]
      · rw [if_neg hc, if_neg (fun h => hc h.1)]
        simp
    · intro B' x hx
      simp only [List.foldl_cons] at hx
      rcases ihc B' x hx with hx1 | hx1
      · rw [hcontrib_e B'] at hx1
        rcases List.mem_append.mp hx1 with hx2 | hx2
        · exact Or.inl hx2
        · right
          by_cases hc : contributesTo e B' = true ∧ e.key ∉ contribsOf st B'
          · rw [if_pos hc] at hx2
            rw [List.mem_singleton.mp hx2]
            exact List.mem_cons_self _ _
          · rw [if_neg hc] at hx2
            exact absurd hx2 (List.not_mem_nil _)
      · exact Or.inr (List.mem_cons_of_mem _ hx1)

theorem durOf_processDuplicates_aux (dups : List DupResult) (st : AggState)
    (seen : List String) (B : String) :
    durOf ((dups.foldl
        (fun (acc : AggState × List String) r =>
          if r.identity ∈ acc.2 then acc
          else (assignDiagnostic acc.1 r.key r.diag 0 r.identity, acc.2 ++ [r.identity]))
        (st, seen)).1) B = durOf st B := by
  induction dups generalizing st seen with
  | nil => simp
  | cons r rs ih =>
    simp only [List.foldl_cons]
    by_cases hmem : r.identity ∈ seen
    · rw [if_pos hmem]
      exact ih st seen
    · rw [if_neg hmem]
      rw [ih]
      rw [durOf_assignDiagnostic]
      simp

theorem durOf_processDuplicates (st : AggState) (dups : List DupResult) (B : String) :
    durOf (processDuplicates st dups) B = durOf st B :=
  durOf_processDuplicates_aux dups st [] B

/-- Claim C5: in a successful multi-target run whose analyzed targets have
pairwise distinct keys, every bucket's accumulated duration is exactly the sum
of the durations of the targets contributing to it — each target counted at
most once per bucket (several diagnostics into one bucket add its duration
once), and counted in every bucket it contributes to (including its own bucket
when it produced no diagnostics); the duplicate-dependency pass contributes
duration 0. -/
theorem c5_duration_accounting (analyzeFn : RawTarget → AnalyzedTargetResult)
    (sharedBundles : List Bundle) (targets : List RawTarget) (body : SuccessBody)
    (hsucc : handleMultiTarget analyzeFn sharedBundles targets = .success body)
    (hnd : ((targets.map analyzeFn).map (fun e => e.key)).Nodup) (B : String) :
    (alGet body.durationsByFile B).getD 0 =
      (((targets.map analyzeFn).filter (fun e => contributesTo e B)).map
        (fun e => e.duration)).sum := by
  unfold handleMultiTarget at hsucc
  by_cases hval : (targets.find? isInvalidTarget).isSome
  · rw [if_pos hval] at hsucc
    exact absurd hsucc (by simp)
  · rw [if_neg hval] at hsucc
    have hbody := (MultiOutcome.success.injEq _ _).mp hsucc.symm
    have hdur : body.durationsByFile =
        (processDuplicates ((targets.map analyzeFn).foldl processEntry initAggState)
          (generateDuplicateDiagnostics (collectAllBundles sharedBundles targets)
            (buildCodeLookup targets) (buildRouteLookup targets))).durationsByFile := by
      rw [hbody]
    have h1 : (alGet body.durationsByFile B).getD 0 =
        durOf (processDuplicates ((targets.map analyzeFn).foldl processEntry initAggState)
          (generateDuplicateDiagnostics (collectAllBundles sharedBundles targets)
            (buildCodeLookup targets) (buildRouteLookup targets))) B := by
      unfold durOf
      rw [hdur]
    rw [h1, durOf_processDuplicates]
    have hfresh : ∀ e ∈ targets.map analyzeFn, ∀ B',
        e.key ∉ contribsOf initAggState B' := by
      intro e _ B'
      simp [contribsOf, initAggState, alGet]
    rw [(foldEntries_dur_effect (targets.map analyzeFn) initAggState hnd hfresh).1 B]
    simp [durOf, initAggState, alGet]

/-- Claim C5 witness: two targets with distinct keys `a` and `b`; target `a`
produces no diagnostics (duration 5 lands in bucket `a`), target `b` emits two
equal-bucket diagnostics (duration 11 lands once in bucket `b`). -/
theorem c5_duration_accounting_witness :
    (alGet (successBodyOf (handleMultiTarget
        (fun t => if t.fileKey = some "a" then ⟨"a", [], 5, [], "0.6.0"⟩
          else ⟨"b",
            [⟨some "rule-x", "error", "m1", some ⟨"b", some ⟨1, 2⟩⟩⟩,
             ⟨some "rule-y", "error", "m2", some ⟨"b", some ⟨3, 4⟩⟩⟩], 11, [], "0.6.0"⟩)
        []
        [{ fileKey := some "a", fileName := some "a", code := some .nil,
           clientBundles := [], route := none },
         { fileKey := some "b", fileName := some "b", code := some .nil,
           clientBundles := [], route := none }])).durationsByFile "b").getD 0 =
      11 := by
  have h := c5_duration_accounting
    (fun t => if t.fileKey = some "a" then ⟨"a", [], 5, [], "0.6.0"⟩
      else ⟨"b",
        [⟨some "rule-x", "error", "m1", some ⟨"b", some ⟨1, 2⟩⟩⟩,
         ⟨some "rule-y", "error", "m2", some ⟨"b", some ⟨3, 4⟩⟩⟩], 11, [], "0.6.0"⟩)
    []
    [{ fileKey := some "a", fileName := some "a", code := some .nil,
       clientBundles := [], route := none },
     { fileKey := some "b", fileName := some "b", code := some .nil,
       clientBundles := [], route := none }]
    (successBodyOf (handleMultiTarget
      (fun t => if t.fileKey = some "a" then ⟨"a", [], 5, [], "0.6.0"⟩
        else ⟨"b",
          [⟨some "rule-x", "error", "m1", some ⟨"b", some ⟨1, 2⟩⟩⟩,
           ⟨some "rule-y", "error", "m2", some ⟨"b", some ⟨3, 4⟩⟩⟩], 11, [], "0.6.0"⟩)
      []
      [{ fileKey := some "a", fileName := some "a", code := some .nil,
         clientBundles := [], route := none },
       { fileKey := some "b", fileName := some "b", code := some .nil,
         clientBundles := [], route := none }]))
    (by decide) (by decide) "b"
  rw [h]
  decide

/-! ## Bucket deduplication (claim C4)

The aggregation keeps `diagnosticsByFile[k]` and `diagnosticKeysByFile.get(k)`
in lockstep: the recorded key list is exactly the image of the bucket under
`getDiagnosticKey`, and it never holds a duplicate. -/

/-- The bucket/key-set synchronization invariant of the aggregation state. -/
def SyncInv (st : AggState) : Prop :=
  ∀ k, ((bucketOf st k).getD []).map getDiagnosticKey = keysOf st k ∧ (keysOf st k).Nodup

theorem syncInv_init : SyncInv initAggState := by
  intro k
  simp [bucketOf, keysOf, initAggState, alGet]

theorem syncInv_same_diag_fields (st st' : AggState)
    (hb : st'.diagnosticsByFile = st.diagnosticsByFile)
    (hk : st'.diagnosticKeysByFile = st.diagnosticKeysByFile) (h : SyncInv st) :
    SyncInv st' := by
  intro k
  unfold bucketOf keysOf
  rw [hb, hk]
  exact h k

theorem syncInv_addDurationForFile (st : AggState) (k : String) (d : Nat) (c : String)
    (h : SyncInv st) : SyncInv (addDurationForFile st k d c) :=
  syncInv_same_diag_fields st _ (addDurationForFile_diag_fields st k d c).1
    (addDurationForFile_diag_fields st k d c).2 h

theorem syncInv_assignDiagnostic (st : AggState) (k : String) (diag : Diag) (dur : Nat)
    (c : String) (h : SyncInv st) : SyncInv (assignDiagnostic st k diag dur c) := by
  unfold assignDiagnostic
  by_cases hdk : getDiagnosticKey diag ∈ (alGet st.diagnosticKeysByFile k).getD []
  · simp only [hdk, if_pos]
    exact syncInv_addDurationForFile st k dur c h
  · simp only [hdk, if_neg, if_false]
    refine syncInv_addDurationForFile _ k dur c ?_
    intro k'
    by_cases hk' : k' = k
    · subst hk'
      unfold bucketOf keysOf
      simp only [alGet_alSet_self, Option.getD_some]
      constructor
      · rw [List.map_append]
        have h2 := (h k').1
        unfold bucketOf keysOf at h2
        rw [h2]
        simp
      · rw [List.nodup_append]
        refine ⟨(h k').2, List.nodup_singleton _, ?_⟩
        intro x hx hx1
        rw [List.mem_singleton.mp hx1] at hx
        exact hdk hx
    · unfold bucketOf keysOf
      simp only [alGet_alSet_ne _ _ _ _ hk']
      exact h k'

theorem syncInv_foldAssign (key : String) (dur : Nat) (cid : String) (ds : List Diag)
    (st : AggState) (h : SyncInv st) :
    SyncInv (ds.foldl (fun acc diag =>
      assignDiagnostic acc (bucketForDiagnostic key diag) diag dur cid) st) := by
  induction ds generalizing st with
  | nil => exact h
  | cons d ds ih =>
    simp only [List.foldl_cons]
    exact ih _ (syncInv_assignDiagnostic st _ d dur cid h)

theorem syncInv_processEntry (st : AggState) (e : AnalyzedTargetResult) (h : SyncInv st) :
    SyncInv (processEntry st e) := by
  unfold processEntry
  by_cases hempty : e.diagnostics.isEmpty
  · rw [if_pos hempty]
    refine syncInv_addDurationForFile _ e.key e.duration e.key ?_
    by_cases hb : (alGet st.diagnosticsByFile e.key).isNone
    · rw [if_pos hb]
      intro k'
      by_cases hk' : k' = e.key
      · subst hk'
        unfold bucketOf keysOf
        simp only [alGet_alSet_self, Option.getD_some, List.map_nil]
        have h1 := (h e.key).1
        unfold bucketOf keysOf at h1
        rw [Option.isNone_iff_eq_none.mp hb] at h1
        simp only [Option.getD_none, List.map_nil] at h1
        exact ⟨h1, h1 ▸ List.nodup_nil⟩
      · unfold bucketOf keysOf
        simp only [alGet_alSet_ne _ _ _ _ hk']
        exact h k'
    · rw [if_neg hb]
      exact h
  · rw [if_neg hempty]
    exact syncInv_foldAssign e.key e.duration e.key e.diagnostics st h

theorem syncInv_foldEntries (analyses : List AnalyzedTargetResult) (st : AggState)
    (h : SyncInv st) : SyncInv (analyses.foldl processEntry st) := by
  induction analyses generalizing st with
  | nil => exact h
  | cons e l ih =>
    simp only [List.foldl_cons]
    exact ih _ (syncInv_processEntry st e h)

theorem syncInv_processDuplicates_aux (dups : List DupResult) (st : AggState)
    (seen : List String) (h : SyncInv st) :
    SyncInv ((dups.foldl
        (fun (acc : AggState × List String) r =>
          if r.identity ∈ acc.2 then acc
          else (assignDiagnostic acc.1 r.key r.diag 0 r.identity, acc.2 ++ [r.identity]))
        (st, seen)).1) := by
  induction dups generalizing st seen with
  | nil => exact h
  | cons r rs ih =>
    simp only [List.foldl_cons]
    by_cases hmem : r.identity ∈ seen
    · rw [if_pos hmem]
      exact ih st seen h
    · rw [if_neg hmem]
      exact ih _ _ (syncInv_assignDiagnostic st r.key r.diag 0 r.identity h)

theorem syncInv_processDuplicates (st : AggState) (dups : List DupResult)
    (h : SyncInv st) : SyncInv (processDuplicates st dups) :=
  syncInv_processDuplicates_aux dups st [] h

/-- Monotone step relation on aggregation states: recorded content keys and
bucket presence only ever grow. -/
def AggMono (st st' : AggState) : Prop :=
  (∀ k x, x ∈ keysOf st k → x ∈ keysOf st' k) ∧
  (∀ k, (bucketOf st k).isSome → (bucketOf st' k).isSome)

theorem aggMono_refl (st : AggState) : AggMono st st :=
  ⟨fun _ _ h => h, fun _ h => h⟩

theorem aggMono_trans {st₁ st₂ st₃ : AggState} (h1 : AggMono st₁ st₂)
    (h2 : AggMono st₂ st₃) : AggMono st₁ st₃ :=
  ⟨fun k x h => h2.1 k x (h1.1 k x h), fun k h => h2.2 k (h1.2 k h)⟩

theorem aggMono_of_same_diag_fields (st st' : AggState)
    (hb : st'.diagnosticsByFile = st.diagnosticsByFile)
    (hk : st'.diagnosticKeysByFile = st.diagnosticKeysByFile) : AggMono st st' := by
  constructor
  · intro k x
    unfold keysOf
    rw [hk]
    exact id
  · intro k
    unfold bucketOf
    rw [hb]
    exact id

theorem aggMono_addDurationForFile (st : AggState) (k : String) (d : Nat) (c : String) :
    AggMono st (addDurationForFile st k d c) :=
  aggMono_of_same_diag_fields st _ (addDurationForFile_diag_fields st k d c).1
    (addDurationForFile_diag_fields st k d c).2

theorem aggMono_assignDiagnostic (st : AggState) (k : String) (diag : Diag) (dur : Nat)
    (c : String) : AggMono st (assignDiagnostic st k diag dur c) := by
  unfold assignDiagnostic
  by_cases hdk : getDiagnosticKey diag ∈ (alGet st.diagnosticKeysByFile k).getD []
  · simp only [hdk, if_pos]
    exact aggMono_addDurationForFile st k dur c
  · simp only [hdk, if_neg, if_false]
    refine aggMono_trans ?_ (aggMono_addDurationForFile _ k dur c)
    constructor
    · intro k' x
      unfold keysOf
      by_cases hk' : k' = k
      · subst hk'
        simp only [alGet_alSet_self, Option.getD_some]
        exact fun h => List.mem_append_left _ h
      · simp only [alGet_alSet_ne _ _ _ _ hk']
        exact id
    · intro k'
      unfold bucketOf
      by_cases hk' : k' = k
      · subst hk'
        simp [alGet_alSet_self]
      · simp only [alGet_alSet_ne _ _ _ _ hk']
        exact id

theorem aggMono_foldAssign (key : String) (dur : Nat) (cid : String) (ds : List Diag)
    (st : AggState) :
    AggMono st (ds.foldl (fun acc diag =>
      assignDiagnostic acc (bucketForDiagnostic key diag) diag dur cid) st) := by
  induction ds generalizing st with
  | nil => exact aggMono_refl st
  | cons d ds ih =>
    simp only [List.foldl_cons]
    exact aggMono_trans (aggMono_assignDiagnostic st _ d dur cid) (ih _)

theorem aggMono_processEntry (st : AggState) (e : AnalyzedTargetResult) :
    AggMono st (processEntry st e) := by
  unfold processEntry
  by_cases hempty : e.diagnostics.isEmpty
  · rw [if_pos hempty]
    refine aggMono_trans ?_ (aggMono_addDurationForFile _ e.key e.duration e.key)
    by_cases hb : (alGet st.diagnosticsByFile e.key).isNone
    · rw [if_pos hb]
      constructor
      · intro k x
        unfold keysOf
        exact id
      · intro k
        unfold bucketOf
        by_cases hk' : k = e.key
        · subst hk'
          simp [alGet_alSet_self]
        · simp only [alGet_alSet_ne _ _ _ _ hk']
          exact id
    · rw [if_neg hb]
      exact aggMono_refl st
  · rw [if_neg hempty]
    exact aggMono_foldAssign e.key e.duration e.key e.diagnostics st

theorem aggMono_foldEntries (analyses : List AnalyzedTargetResult) (st : AggState) :
    AggMono st (analyses.foldl processEntry st) := by
  induction analyses generalizing st with
  | nil => exact aggMono_refl st
  | cons e l ih =>
    simp only [List.foldl_cons]
    exact aggMono_trans (aggMono_processEntry st e) (ih _)

theorem aggMono_processDuplicates_aux (dups : List DupResult) (st : AggState)
    (seen : List String) :
    AggMono st ((dups.foldl
        (fun (acc : AggState × List String) r =>
          if r.identity ∈ acc.2 then acc
          else (assignDiagnostic acc.1 r.key r.diag 0 r.identity, acc.2 ++ [r.identity]))
        (st, seen)).1) := by
  induction dups generalizing st seen with
  | nil => exact aggMono_refl st
  | cons r rs ih =>
    simp only [List.foldl_cons]
    by_cases hmem : r.identity ∈ seen
    · rw [if_pos hmem]
      exact ih st seen
    · rw [if_neg hmem]
      exact aggMono_trans (aggMono_assignDiagnostic st r.key r.diag 0 r.identity) (ih _ _)

theorem aggMono_processDuplicates (st : AggState) (dups : List DupResult) :
    AggMono st (processDuplicates st dups) :=
  aggMono_processDuplicates_aux dups st []

theorem assignDiagnostic_key_mem (st : AggState) (k : String) (diag : Diag) (dur : Nat)
    (c : String) :
    getDiagnosticKey diag ∈ keysOf (assignDiagnostic st k diag dur c) k := by
  unfold assignDiagnostic
  by_cases hdk : getDiagnosticKey diag ∈ (alGet st.diagnosticKeysByFile k).getD []
  · simp only [hdk, if_pos]
    unfold keysOf
    rw [(addDurationForFile_diag_fields st k dur c).2]
    exact hdk
  · simp only [hdk, if_neg, if_false]
    unfold keysOf
    rw [(addDurationForFile_diag_fields _ k dur c).2]
    simp [alGet_alSet_self]

theorem foldAssign_key_mem (key : String) (dur : Nat) (cid : String) (ds : List Diag)
    (st : AggState) (d : Diag) (hd : d ∈ ds) :
    getDiagnosticKey d ∈ keysOf
      (ds.foldl (fun acc diag =>
        assignDiagnostic acc (bucketForDiagnostic key diag) diag dur cid) st)
      (bucketForDiagnostic key d) := by
  induction ds generalizing st with
  | nil => exact absurd hd (List.not_mem_nil d)
  | cons d0 ds ih =>
    simp only [List.foldl_cons]
    rcases List.mem_cons.mp hd with hd0 | hd0
    · subst hd0
      exact (aggMono_foldAssign key dur cid ds _).1 _ _
        (assignDiagnostic_key_mem st _ d dur cid)
    · exact ih _ hd0

theorem processEntry_key_mem (st : AggState) (e : AnalyzedTargetResult) (d : Diag)
    (hd : d ∈ e.diagnostics) :
    getDiagnosticKey d ∈ keysOf (processEntry st e) (bucketForDiagnostic e.key d) := by
  unfold processEntry
  have hempty : e.diagnostics.isEmpty = false := by
    cases hds : e.diagnostics with
    | nil => rw [hds] at hd; exact absurd hd (List.not_mem_nil d)
    | cons a l => simp
  rw [if_neg (by simp [hempty])]
  exact foldAssign_key_mem e.key e.duration e.key e.diagnostics st d hd

theorem processEntry_bucket_some (st : AggState) (e : AnalyzedTargetResult)
    (hempty : e.diagnostics.isEmpty = true) :
    (bucketOf (processEntry st e) e.key).isSome := by
  unfold processEntry
  rw [if_pos hempty]
  refine (aggMono_addDurationForFile _ e.key e.duration e.key).2 e.key ?_
  by_cases hb : (alGet st.diagnosticsByFile e.key).isNone
  · rw [if_pos hb]
    unfold bucketOf
    simp [alGet_alSet_self]
  · rw [if_neg hb]
    unfold bucketOf
    exact Option.isSome_iff_ne_none.mpr (Option.isNone_iff_eq_none.not.mp hb)

theorem foldEntries_key_mem (analyses : List AnalyzedTargetResult) (st : AggState)
    (e : AnalyzedTargetResult) (he : e ∈ analyses) (d : Diag) (hd : d ∈ e.diagnostics) :
    getDiagnosticKey d ∈ keysOf (analyses.foldl processEntry st)
      (bucketForDiagnostic e.key d) := by
  induction analyses generalizing st with
  | nil => exact absurd he (List.not_mem_nil e)
  | cons e0 l ih =>
    simp only [List.foldl_cons]
    rcases List.mem_cons.mp he with he0 | he0
    · subst he0
      exact (aggMono_foldEntries l _).1 _ _ (processEntry_key_mem st e d hd)
    · exact ih _ he0

theorem foldEntries_bucket_some (analyses : List AnalyzedTargetResult) (st : AggState)
    (e : AnalyzedTargetResult) (he : e ∈ analyses)
    (hempty : e.diagnostics.isEmpty = true) :
    (bucketOf (analyses.foldl processEntry st) e.key).isSome := by
  induction analyses generalizing st with
  | nil => exact absurd he (List.not_mem_nil e)
  | cons e0 l ih =>
    simp only [List.foldl_cons]
    rcases List.mem_cons.mp he with he0 | he0
    · subst he0
      exact (aggMono_foldEntries l _).2 _ (processEntry_bucket_some st e hempty)
    · exact ih _ he0

theorem keysOf_to_bucket_count (st : AggState) (B K : String) (hsync : SyncInv st)
    (hK : K ∈ keysOf st B) :
    ∃ l, bucketOf st B = some l ∧
      (l.filter (fun d' => getDiagnosticKey d' == K)).length = 1 ∧
      (l.map getDiagnosticKey).Nodup := by
  obtain ⟨hmap, hnd⟩ := hsync B
  cases hb : bucketOf st B with
  | none =>
    rw [hb] at hmap
    simp only [Option.getD_none, List.map_nil] at hmap
    rw [← hmap] at hK
    exact absurd hK (List.not_mem_nil K)
  | some l =>
    rw [hb] at hmap
    simp only [Option.getD_some] at hmap
    refine ⟨l, rfl, ?_, hmap ▸ hnd⟩
    have hcount : (l.filter (fun d' => getDiagnosticKey d' == K)).length =
        List.count K (keysOf st B) := by
      rw [← List.countP_eq_length_filter, List.count_eq_countP, ← hmap,
        List.countP_map]
      rfl
    rw [hcount]
    have hle := List.nodup_iff_count_le_one.mp hnd K
    have hge : 0 < List.count K (keysOf st B) := List.count_pos_iff.mpr hK
    omega

/-- Claim C4: in every successful multi-target run, no two diagnostics of one
output file bucket share a content key (`rule-or-suggestion`, message,
`loc.file`, range) — and every diagnostic a target destined for a bucket is
present in that bucket with its content key occurring exactly once, even when
several independent targets produced it. -/
theorem c4_bucket_content_key_unique (analyzeFn : RawTarget → AnalyzedTargetResult)
    (sharedBundles : List Bundle) (targets : List RawTarget) (body : SuccessBody)
    (hsucc : handleMultiTarget analyzeFn sharedBundles targets = .success body) :
    (∀ k l, alGet body.diagnosticsByFile k = some l →
      (l.map getDiagnosticKey).Nodup) ∧
    (∀ e ∈ targets.map analyzeFn, ∀ d ∈ e.diagnostics,
      ∃ l, alGet body.diagnosticsByFile (bucketForDiagnostic e.key d) = some l ∧
        (l.filter (fun d' => getDiagnosticKey d' == getDiagnosticKey d)).length = 1) := by
  unfold handleMultiTarget at hsucc
  by_cases hval : (targets.find? isInvalidTarget).isSome
  · rw [if_pos hval] at hsucc
    exact absurd hsucc (by simp)
  · rw [if_neg hval] at hsucc
    have hbody := (MultiOutcome.success.injEq _ _).mp hsucc.symm
    have hdf : body.diagnosticsByFile =
        (processDuplicates ((targets.map analyzeFn).foldl processEntry initAggState)
          (generateDuplicateDiagnostics (collectAllBundles sharedBundles targets)
            (buildCodeLookup targets) (buildRouteLookup targets))).diagnosticsByFile := by
      rw [hbody]
    have hsync : SyncInv
        (processDuplicates ((targets.map analyzeFn).foldl processEntry initAggState)
          (generateDuplicateDiagnostics (collectAllBundles sharedBundles targets)
            (buildCodeLookup targets) (buildRouteLookup targets))) :=
      syncInv_processDuplicates _ _ (syncInv_foldEntries _ _ syncInv_init)
    constructor
    · intro k l hl
      have hb : bucketOf
          (processDuplicates ((targets.map analyzeFn).foldl processEntry initAggState)
            (generateDuplicateDiagnostics (collectAllBundles sharedBundles targets)
              (buildCodeLookup targets) (buildRouteLookup targets))) k = some l := by
        unfold bucketOf
        rw [← hdf]
        exact hl
      obtain ⟨hmap, hnd⟩ := hsync k
      rw [hb] at hmap
      simp only [Option.getD_some] at hmap
      rw [hmap]
      exact hnd
    · intro e he d hd
      have hK : getDiagnosticKey d ∈ keysOf
          (processDuplicates ((targets.map analyzeFn).foldl processEntry initAggState)
            (generateDuplicateDiagnostics (collectAllBundles sharedBundles targets)
              (buildCodeLookup targets) (buildRouteLookup targets)))
          (bucketForDiagnostic e.key d) :=
        (aggMono_processDuplicates _ _).1 _ _
          (foldEntries_key_mem (targets.map analyzeFn) initAggState e he d hd)
      obtain ⟨l, hb, hcount, -⟩ := keysOf_to_bucket_count _ _ _ hsync hK
      refine ⟨l, ?_, hcount⟩
      rw [hdf]
      exact hb

/-- Claim C4 witness: two targets (keys `a` and `b`) each independently
produce the identical diagnostic located in `lib/Shared.tsx`; the shared
bucket `Shared.tsx` contains it exactly once. -/
theorem c4_bucket_content_key_unique_witness :
    ∃ l, alGet (successBodyOf (handleMultiTarget
        (fun t => if t.fileKey = some "a"
          then ⟨"a", [⟨some "r", "warn", "m", some ⟨"lib/Shared.tsx", some ⟨5, 9⟩⟩⟩], 3,
            [], "0.6.0"⟩
          else ⟨"b", [⟨some "r", "warn", "m", some ⟨"lib/Shared.tsx", some ⟨5, 9⟩⟩⟩], 4,
            [], "0.6.0"⟩)
        []
        [{ fileKey := some "a", fileName := some "a", code := some .nil,
           clientBundles := [], route := none },
         { fileKey := some "b", fileName := some "b", code := some .nil,
           clientBundles := [], route := none }])).diagnosticsByFile
      (bucketForDiagnostic "b" ⟨some "r", "warn", "m", some ⟨"lib/Shared.tsx", some ⟨5, 9⟩⟩⟩) =
        some l ∧
      (l.filter (fun d' => getDiagnosticKey d' ==
        getDiagnosticKey ⟨some "r", "warn", "m", some ⟨"lib/Shared.tsx", some ⟨5, 9⟩⟩⟩)).length
        = 1 :=
  (c4_bucket_content_key_unique
    (fun t => if t.fileKey = some "a"
      then ⟨"a", [⟨some "r", "warn", "m", some ⟨"lib/Shared.tsx", some ⟨5, 9⟩⟩⟩], 3,
        [], "0.6.0"⟩
      else ⟨"b", [⟨some "r", "warn", "m", some ⟨"lib/Shared.tsx", some ⟨5, 9⟩⟩⟩], 4,
        [], "0.6.0"⟩)
    []
    [{ fileKey := some "a", fileName := some "a", code := some .nil,
       clientBundles := [], route := none },
     { fileKey := some "b", fileName := some "b", code := some .nil,
       clientBundles := [], route := none }]
    (successBodyOf (handleMultiTarget
      (fun t => if t.fileKey = some "a"
        then ⟨"a", [⟨some "r", "warn", "m", some ⟨"lib/Shared.tsx", some ⟨5, 9⟩⟩⟩], 3,
          [], "0.6.0"⟩
        else ⟨"b", [⟨some "r", "warn", "m", some ⟨"lib/Shared.tsx", some ⟨5, 9⟩⟩⟩], 4,
          [], "0.6.0"⟩)
      []
      [{ fileKey := some "a", fileName := some "a", code := some .nil,
         clientBundles := [], route := none },
       { fileKey := some "b", fileName := some "b", code := some .nil,
         clientBundles := [], route := none }]))
    (by decide)).2
    ⟨"b", [⟨some "r", "warn", "m", some ⟨"lib/Shared.tsx", some ⟨5, 9⟩⟩⟩], 4, [], "0.6.0"⟩
    (by decide)
    ⟨some "r", "warn", "m", some ⟨"lib/Shared.tsx", some ⟨5, 9⟩⟩⟩
    (by decide)

/-! ## Bucket presence (claim C2) -/

/-- Claim C2, counterexample: a successful multi-target run whose only target
(key `A.tsx`) produced one diagnostic located at `dir/B.tsx`.  The diagnostic
is re-attributed to the basename bucket `B.tsx`, and `diagnosticsByFile` ends
up with no entry at all under the input target's key `A.tsx`. -/
theorem c2_missing_target_key_counterexample :
    ∃ body, handleMultiTarget
        (fun _ => ⟨"A.tsx", [⟨some "r", "error", "m", some ⟨"dir/B.tsx", some ⟨0, 1⟩⟩⟩],
          3, [], "0.6.0"⟩)
        []
        [{ fileKey := some "A.tsx", fileName := some "A.tsx", code := some .nil,
           clientBundles := [], route := none }] = .success body ∧
      alGet body.diagnosticsByFile "A.tsx" = none ∧
      (alGet body.diagnosticsByFile "B.tsx").isSome := by
  refine ⟨successBodyOf (handleMultiTarget
      (fun _ => ⟨"A.tsx", [⟨some "r", "error", "m", some ⟨"dir/B.tsx", some ⟨0, 1⟩⟩⟩],
        3, [], "0.6.0"⟩)
      []
      [{ fileKey := some "A.tsx", fileName := some "A.tsx", code := some .nil,
         clientBundles := [], route := none }]), ?_, ?_, ?_⟩
  · decide
  · decide
  · decide

/-- Claim C2 (amended): in every successful multi-target run,
`diagnosticsByFile` contains an entry (possibly empty) for the key of every
target that produced zero diagnostics, and an entry for the destination
bucket of every diagnostic a target produced; a target all of whose
diagnostics were re-attributed to other buckets may have no entry under its
own key. -/
theorem c2_bucket_presence (analyzeFn : RawTarget → AnalyzedTargetResult)
    (sharedBundles : List Bundle) (targets : List RawTarget) (body : SuccessBody)
    (hsucc : handleMultiTarget analyzeFn sharedBundles targets = .success body) :
    (∀ e ∈ targets.map analyzeFn, e.diagnostics.isEmpty = true →
      (alGet body.diagnosticsByFile e.key).isSome) ∧
    (∀ e ∈ targets.map analyzeFn, ∀ d ∈ e.diagnostics,
      (alGet body.diagnosticsByFile (bucketForDiagnostic e.key d)).isSome) := by
  unfold handleMultiTarget at hsucc
  by_cases hval : (targets.find? isInvalidTarget).isSome
  · rw [if_pos hval] at hsucc
    exact absurd hsucc (by simp)
  · rw [if_neg hval] at hsucc
    have hbody := (MultiOutcome.success.injEq _ _).mp hsucc.symm
    have hdf : body.diagnosticsByFile =
        (processDuplicates ((targets.map analyzeFn).foldl processEntry initAggState)
          (generateDuplicateDiagnostics (collectAllBundles sharedBundles targets)
            (buildCodeLookup targets) (buildRouteLookup targets))).diagnosticsByFile := by
      rw [hbody]
    constructor
    · intro e he hempty
      have h1 : (bucketOf ((targets.map analyzeFn).foldl processEntry initAggState)
          e.key).isSome :=
        foldEntries_bucket_some (targets.map analyzeFn) initAggState e he hempty
      have h2 := (aggMono_processDuplicates
        ((targets.map analyzeFn).foldl processEntry initAggState)
        (generateDuplicateDiagnostics (collectAllBundles sharedBundles targets)
          (buildCodeLookup targets) (buildRouteLookup targets))).2 e.key h1
      unfold bucketOf at h2
      rw [hdf]
      exact h2
    · intro e he d hd
      have hsync : SyncInv
          (processDuplicates ((targets.map analyzeFn).foldl processEntry initAggState)
            (generateDuplicateDiagnostics (collectAllBundles sharedBundles targets)
              (buildCodeLookup targets) (buildRouteLookup targets))) :=
        syncInv_processDuplicates _ _ (syncInv_foldEntries _ _ syncInv_init)
      have hK : getDiagnosticKey d ∈ keysOf
          (processDuplicates ((targets.map analyzeFn).foldl processEntry initAggState)
            (generateDuplicateDiagnostics (collectAllBundles sharedBundles targets)
              (buildCodeLookup targets) (buildRouteLookup targets)))
          (bucketForDiagnostic e.key d) :=
        (aggMono_processDuplicates _ _).1 _ _
          (foldEntries_key_mem (targets.map analyzeFn) initAggState e he d hd)
      obtain ⟨l, hb, -, -⟩ := keysOf_to_bucket_count _ _ _ hsync hK
      rw [hdf]
      unfold bucketOf at hb
      rw [hb]
      rfl

/-- Claim C2 witness: a single zero-diagnostic target keyed `a` yields an
entry under `a`. -/
theorem c2_bucket_presence_witness :
    (alGet (successBodyOf (handleMultiTarget
        (fun _ => ⟨"a", [], 5, [], "0.6.0"⟩) []
        [{ fileKey := some "a", fileName := some "a", code := some .nil,
           clientBundles := [], route := none }])).diagnosticsByFile "a").isSome :=
  (c2_bucket_presence (fun _ => ⟨"a", [], 5, [], "0.6.0"⟩) []
    [{ fileKey := some "a", fileName := some "a", code := some .nil,
       clientBundles := [], route := none }]
    (successBodyOf (handleMultiTarget (fun _ => ⟨"a", [], 5, [], "0.6.0"⟩) []
      [{ fileKey := some "a", fileName := some "a", code := some .nil,
         clientBundles := [], route := none }]))
    (by decide)).1 ⟨"a", [], 5, [], "0.6.0"⟩ (by decide) (by decide)

end RscXray
